import Mathlib

/-!
Shallow embedding of `sw_methods.py` (pysatMissionPlanning): the multi-source
index merge routines `combine_kp` and `combine_f107` and the daily-Ap helper
`calc_daily_Ap`.

Conventions of the embedding:
* timestamps are integers counting hours from an epoch midnight; one calendar
  day is 24 hours, the Kp cadence is 3 hours, the daily F10.7 cadence is 24;
* index values are integers (for the merge routines) or rationals (for the
  ap means); the pandas `NaN` sentinel inside the ap pipeline is `Option`;
* a pysat Instrument is its currently resident data plus, for date-loaded
  sources, a day-keyed archive, and, for file-loaded sources, a catalogue of
  files; `load` replaces the resident data;
* Python exceptions are an explicit error type; the stateful `while` sweep is
  a fuel-indexed recursion (fuel exhaustion is reported as its own error, the
  concrete runs and theorems below always supply enough fuel).
-/

namespace SW

/-- One observation: (timestamp in hours, value). -/
abbrev Obs := Int × Int

/-- The Python exceptions that the merge code (or a collaborator it calls)
can raise: `ValueError`, `TypeError`, `IndexError`, `AttributeError`, plus a
marker for exhausted fuel of the embedded `while` loop. -/
inductive CombErr where
  | valueErr
  | typeErr
  | indexErr
  | attrErr
  | fuelOut
  deriving DecidableEq, Repr

/-- Midnight of the calendar day containing hour `t`. -/
def dayStart (t : Int) : Int := 24 * (t.fdiv 24)

/-- `inst.load(date=t)` for a date-loaded source: the archive entries of the
calendar day containing `t` become the resident data. -/
def loadByDate (arch : List Obs) (t : Int) : List Obs :=
  arch.filter (fun p => dayStart p.1 == dayStart t)

/-- Minimum of a list of integers (`none` on the empty list). -/
def intListMin : List Int → Option Int
  | [] => none
  | t :: r => some (r.foldl min t)

/-- Maximum of a list of integers (`none` on the empty list). -/
def intListMax : List Int → Option Int
  | [] => none
  | t :: r => some (r.foldl max t)

/-- `[inst.index.min() for inst in all_inst if len(inst.index) > 0]`. -/
def residentMins (residents : List (List Obs)) : List Int :=
  (residents.filter (fun r => !r.isEmpty)).filterMap (fun r => intListMin (r.map (·.1)))

/-- `[inst.index.max() for inst in all_inst if len(inst.index) > 0]`. -/
def residentMaxs (residents : List (List Obs)) : List Int :=
  (residents.filter (fun r => !r.isEmpty)).filterMap (fun r => intListMax (r.map (·.1)))

/-- `combine_kp` lines 81-83: derive `start` when it was not supplied. -/
def deriveStartKp (residents : List (List Obs)) (start? : Option Int) : Option Int :=
  match start? with
  | some s => some s
  | none => intListMin (residentMins residents)

/-- `combine_kp` lines 85-88: derive `stop` when it was not supplied.  The
source sets `stop = max(stimes) if len(stimes) > 0 else None` and then runs
`stop += pds.DateOffset(days=1)` unconditionally, so when no source has
resident data the addition is `None + DateOffset` and Python raises
`TypeError` before the `ValueError` guard of lines 90-92 is reached. -/
def deriveStopKp (residents : List (List Obs)) (stop? : Option Int) : Except CombErr Int :=
  match stop? with
  | some s => .ok s
  | none =>
    match intListMax (residentMaxs residents) with
    | some m => .ok (m + 24)
    | none => .error .typeErr

/-- A standard (date-loaded) Kp source: resident data, day-keyed archive and
the fill value of its `'Kp'` metadata. -/
structure KpInst where
  resident : List Obs
  arch : List Obs
  fill : Int
  deriving DecidableEq

/-- One file of a file-loaded source, with the catalogue dates under which it
is listed in `inst.files.files` and the observations it loads. -/
structure SwFile where
  dates : List Int
  obs : List Obs
  deriving DecidableEq

/-- A recent/forecast (file-loaded) source. -/
structure FileInst where
  resident : List Obs
  files : List SwFile
  fill : Int
  deriving DecidableEq

/-- `np.unique(inst.files.files[itime:stop])`: the files listed under some
catalogue date in the closed label range `[itime, stop]`. -/
def selectFiles (files : List SwFile) (itime stop : Int) : List SwFile :=
  files.filter (fun f => f.dates.any (fun d => decide (itime ≤ d) && decide (d ≤ stop)))

/-- The `inst_flag` values of the `combine_kp` sweep. -/
inductive KpFlag where
  | standard
  | recent
  | forecast
  deriving DecidableEq

/-- Rendering of `itime.date()` used inside the provenance notes: the day
index stands in for the calendar date. -/
def dayLabel (t : Int) : String := toString (t.fdiv 24)

/-- State of the `combine_kp` while loop: the active flag, the cursor
`itime`, the accumulated `(kp_times, kp_values)` pairs, each source's
resident data and the provenance notes (with the `notes.find(...) < 0`
tests mirrored by booleans, the searched labels never occur in the initial
notes text). -/
structure KpState where
  flag : Option KpFlag
  itime : Int
  acc : List Obs
  stdRes : List Obs
  recRes : List Obs
  fcRes : List Obs
  notes : String
  notedStd : Bool
  notedRec : Bool
  notedFc : Bool
  deriving DecidableEq

/-- `combine_kp` lines 112-125, the standard branch of one while iteration:
load the day of `itime` and, when data arrived, append the entire loaded day
(no window and no fill filtering) and advance the cursor past its last
timestamp; on an empty load fall through to the recent (or forecast)
source. -/
def kpStdBranch (standard : Option KpInst) (recent : Option FileInst) (st : KpState) :
    Except CombErr KpState :=
  if st.flag = some .standard then
    match standard with
    | none => .error .attrErr
    | some s =>
      let day := loadByDate s.arch st.itime
      let nts := if !st.notedStd then
          st.notes ++ " the standard source (" ++ dayLabel st.itime ++ " to "
        else st.notes
      let ntd := if !st.notedStd then true else st.notedStd
      if day.isEmpty then
        .ok { st with
              flag := if recent.isSome then some .recent else some .forecast,
              stdRes := day,
              notes := nts ++ dayLabel st.itime ++ ")",
              notedStd := ntd }
      else
        match (st.acc ++ day).getLast? with
        | none => .error .indexErr
        | some lastp =>
          .ok { st with
                acc := st.acc ++ day,
                stdRes := day,
                itime := lastp.1 + 3,
                notes := nts,
                notedStd := ntd }
  else .ok st

/-- The `for filename in files` loop of `combine_kp` (lines 136-153 for the
recent source, 166-184 for the forecast source): each entry is `some obs`
for a file to load or `none` for the already-resident pass; the kept
observations are those in `[itime, stop)` whose value differs from the
source's own fill value; after each file the cursor is reset from the last
element of the whole accumulator (`kp_times[-1]`), which raises `IndexError`
when the accumulator is still empty. -/
def kpFileLoop (fill stop : Int) (label : String) :
    List (Option (List Obs)) → List Obs → Int → List Obs → String → Bool →
    Except CombErr (List Obs × Int × List Obs × String × Bool)
  | [], res, itime, acc, nts, noted => .ok (acc, itime, res, nts, noted)
  | e :: rest, res, itime, acc, nts, noted =>
    let res := match e with
      | some o => o
      | none => res
    let nts2 := if !noted then
        nts ++ " the " ++ label ++ " source (" ++ dayLabel itime ++ " to "
      else nts
    let ntd := if !noted then true else noted
    let good := res.filter (fun p =>
      decide (itime ≤ p.1) && decide (p.1 < stop) && (p.2 != fill))
    let acc2 := acc ++ good
    match acc2.getLast? with
    | none => .error .indexErr
    | some lastp => kpFileLoop fill stop label rest res (lastp.1 + 3) acc2 nts2 ntd

/-- `combine_kp` lines 128-156: the recent branch of one while iteration. -/
def kpRecentBranch (recent forecast : Option FileInst) (stop : Int) (st : KpState) :
    Except CombErr KpState :=
  if st.flag = some .recent then
    match recent with
    | none => .error .attrErr
    | some r =>
      let entries : List (Option (List Obs)) :=
        if st.recRes.isEmpty then (selectFiles r.files st.itime stop).map (fun f => some f.obs)
        else [none]
      match kpFileLoop r.fill stop "recent" entries st.recRes st.itime st.acc st.notes st.notedRec with
      | .error e => .error e
      | .ok (acc, itime, res, nts, noted) =>
        .ok { st with
              acc := acc,
              itime := itime,
              recRes := res,
              flag := if forecast.isSome then some .forecast else none,
              notes := nts ++ dayLabel itime ++ ")",
              notedRec := noted }
  else .ok st

/-- `combine_kp` lines 159-187: the forecast branch of one while iteration. -/
def kpForecastBranch (forecast : Option FileInst) (stop : Int) (st : KpState) :
    Except CombErr KpState :=
  if st.flag = some .forecast then
    match forecast with
    | none => .error .attrErr
    | some f =>
      let entries : List (Option (List Obs)) :=
        if st.fcRes.isEmpty then (selectFiles f.files st.itime stop).map (fun fl => some fl.obs)
        else [none]
      match kpFileLoop f.fill stop "forecast" entries st.fcRes st.itime st.acc st.notes st.notedFc with
      | .error e => .error e
      | .ok (acc, itime, res, nts, noted) =>
        .ok { st with
              acc := acc,
              itime := itime,
              fcRes := res,
              flag := none,
              notes := nts ++ dayLabel itime ++ ")",
              notedFc := noted }
  else .ok st

/-- One iteration of the `combine_kp` while body: the three `if` branches run
in sequence on the evolving state (they are `if`, not `elif`, in the
source). -/
def kpIter (standard : Option KpInst) (recent forecast : Option FileInst) (stop : Int)
    (st : KpState) : Except CombErr KpState :=
  match kpStdBranch standard recent st with
  | .error e => .error e
  | .ok st1 =>
    match kpRecentBranch recent forecast stop st1 with
    | .error e => .error e
    | .ok st2 => kpForecastBranch forecast stop st2

/-- `combine_kp` lines 110-187: `while itime < stop and inst_flag is not
None`, as a fuel-indexed recursion. -/
def kpLoop (standard : Option KpInst) (recent forecast : Option FileInst) (stop : Int) :
    Nat → KpState → Except CombErr KpState
  | 0, _ => .error .fuelOut
  | fuel + 1, st =>
    if st.itime < stop ∧ st.flag ≠ none then
      match kpIter standard recent forecast stop st with
      | .error e => .error e
      | .ok st2 => kpLoop standard recent forecast stop fuel st2
    else .ok st

/-- Consecutive differences of a list of timestamps. -/
def consecDiffs : List Int → List Int
  | a :: b :: r => (b - a) :: consecDiffs (b :: r)
  | _ => []

/-- Modelled from the spec: the host framework's frequency-inference utility
`pysat.utils.calc_freq` (spec step 4, infer the cadence from the accumulated
timestamps, median or modal spacing), which is not part of this repository.
The host computes the minimum spacing of consecutive timestamps and raises
`ValueError` when fewer than two timestamps are available; on the uniformly
spaced accumulators appearing below, minimum, median and modal spacing all
coincide. -/
def calcFreq (times : List Int) : Option Int :=
  intListMin (consecDiffs times)

/-- `pds.date_range(start=a, end=b, freq=f)`: `a, a+f, a+2f, …` up to and
including `b`. -/
def dateRange (a b f : Int) : List Int :=
  if 0 < f ∧ a ≤ b then
    (List.range (((b - a) / f).toNat + 1)).map (fun (k : Nat) => a + f * (k : Int))
  else []

/-- Minimum of a list of naturals, `0` on the empty list. -/
def natMinD : List Nat → Nat
  | [] => 0
  | d :: r => r.foldl min d

/-- `abs(l - x).argmin()`: index of the first element of `l` at minimal
absolute distance from `x`. -/
def argminAbsIdx (l : List Int) (x : Int) : Nat :=
  let ds := l.map (fun t => (t - x).natAbs)
  ds.indexOf (natMinD ds)

/-- Steps 6-7 of the merge (`combine_kp` lines 197-214, `combine_f107` lines
380-397): pad the accumulated times and values on the left when the canonical
axis starts before the first accumulated timestamp (via the reversal dance of
the source) and on the right when it ends after the last one.  Indexing the
head of an empty axis or accumulator raises `IndexError`. -/
def padSteps (dr times values : List Int) (fill : Int) :
    Except CombErr (List Int × List Int) :=
  match dr.head?, times.head? with
  | some d0, some t0 =>
    let tv :=
      if d0 < t0 then
        let i := argminAbsIdx dr t0
        let ext := dr.take i
        ((times.reverse ++ ext.reverse).reverse,
          (values.reverse ++ (ext.map (fun _ => fill)).reverse).reverse)
      else (times, values)
    match dr.getLast?, tv.1.getLast? with
    | some dl, some tl =>
      if dl > tl then
        let i := argminAbsIdx dr tl + 1
        .ok (tv.1 ++ dr.drop i, tv.2 ++ (dr.drop i).map (fun _ => fill))
      else .ok tv
    | _, _ => .error .indexErr
  | _, _ => .error .indexErr

/-- Value of the accumulated series at an exact timestamp. -/
def lookupVal (times values : List Int) (t : Int) : Option Int :=
  ((times.zip values).find? (fun p => p.1 == t)).map (·.2)

/-- `.resample(freq).fillna(method=None)` followed by the replacement of NaN
entries with the (finite) fill value (`combine_kp` lines 219-224,
`combine_f107` lines 403-408): the output runs over the frequency grid from
the first to the last index entry, keeps values present at a grid slot and
fills the rest; every timestamp in use is aligned to the frequency, so the
resampling bins are the grid slots themselves. -/
def resampleFillNa (times values : List Int) (freq fill : Int) : List Obs :=
  match times.head?, times.getLast? with
  | some t0, some tl =>
    (dateRange t0 tl freq).map (fun t => (t, (lookupVal times values t).getD fill))
  | _, _ => []

/-- The shared tail of both merges (`combine_kp` lines 192-224, `combine_f107`
lines 375-408): infer the frequency, build the canonical axis
`date_range(start, stop - 1 day, freq)`, pad, and resample unless the padded
times already equal the axis. -/
def finalizeSeries (start stop : Int) (acc : List Obs) (fill : Int) :
    Except CombErr (List Obs) :=
  let times := acc.map (·.1)
  let values := acc.map (·.2)
  match calcFreq times with
  | none => .error .valueErr
  | some freq =>
    let dr := dateRange start (stop - 24) freq
    match padSteps dr times values fill with
    | .error e => .error e
    | .ok tv =>
      if tv.1 = dr then .ok (tv.1.zip tv.2)
      else .ok (resampleFillNa tv.1 tv.2 freq fill)

/-- Result of `combine_kp`: the tag, the resolved window, the accumulated
pairs of the sweep (`kp_times`/`kp_values` before padding), the final series
and the provenance notes. -/
structure KpResult where
  tag : String
  start : Int
  stop : Int
  acc : List Obs
  series : List Obs
  notes : String
  deriving DecidableEq

/-- `combine_kp` (sw_methods.py lines 13-230). -/
def combine_kp (standard : Option KpInst) (recent forecast : Option FileInst)
    (start? stop? : Option Int) (fill_val : Int) (fuel : Nat) :
    Except CombErr KpResult :=
  let tag := "combined"
    ++ (if standard.isSome then "_standard" else "")
    ++ (if recent.isSome then "_recent" else "")
    ++ (if forecast.isSome then "_forecast" else "")
  let flag0 : Option KpFlag :=
    if standard.isSome then some .standard
    else if recent.isSome then some .recent
    else if forecast.isSome then some .forecast
    else none
  let nInst := (if standard.isSome then 1 else 0) + (if recent.isSome then 1 else 0)
    + (if forecast.isSome then 1 else 0)
  if nInst < 2 then .error .valueErr
  else
    let residents :=
      (match standard with
        | some s => [s.resident]
        | none => [])
      ++ (match recent with
        | some r => [r.resident]
        | none => [])
      ++ (match forecast with
        | some f => [f.resident]
        | none => [])
    let startO := deriveStartKp residents start?
    match deriveStopKp residents stop? with
    | .error e => .error e
    | .ok stop =>
      match startO with
      | none => .error .valueErr
      | some start =>
        let st0 : KpState :=
          { flag := flag0, itime := start, acc := [],
              stdRes := (standard.map (·.resident)).getD [],
              recRes := (recent.map (·.resident)).getD [],
              fcRes := (forecast.map (·.resident)).getD [],
              notes := "Combines data from",
              notedStd := false, notedRec := false, notedFc := false }
        match kpLoop standard recent forecast stop fuel st0 with
        | .error e => .error e
        | .ok st =>
          let nts := if st.flag ≠ none then st.notes ++ dayLabel st.itime ++ ")" else st.notes
          match finalizeSeries start stop st.acc fill_val with
          | .error e => .error e
          | .ok series =>
            .ok { tag := tag, start := start, stop := stop, acc := st.acc,
                  series := series, notes := nts ++ ", in that order" }

/-- A metadata object of a pysat Instrument: the fill value of its index
variable and the notes text. -/
structure MetaObj where
  fill : Int
  notes : String
  deriving DecidableEq

/-- The standard (measured) F10.7 source: resident data, day-keyed archive,
its pysat tag (the `'daily'` tag triggers the 30-day skip-ahead load) and its
metadata object. -/
structure F107Inst where
  resident : List Obs
  arch : List Obs
  tag : String
  meta : MetaObj
  deriving DecidableEq

/-- The forecast (file-loaded) F10.7 source. -/
structure F107FileInst where
  resident : List Obs
  files : List SwFile
  tag : String
  meta : MetaObj
  deriving DecidableEq

/-- Which input instrument's metadata object `f107_inst.meta` aliases after
the assignment of line 325 (standard) or line 355 (forecast). -/
inductive MetaSrc where
  | standard
  | forecast
  deriving DecidableEq

/-- The `inst_flag` values of the `combine_f107` sweep. -/
inductive F107Flag where
  | standard
  | forecast
  deriving DecidableEq

/-- State of the `combine_f107` while loop; `fillSt` is `fill_val` together
with the provenance of the aliased metadata object (`none` as long as
`fill_val is None`). -/
structure F107State where
  flag : Option F107Flag
  itime : Int
  acc : List Obs
  stdRes : List Obs
  fcRes : List Obs
  fillSt : Option (MetaSrc × Int)
  notes : String
  notedStd : Bool
  notedFc : Bool
  deriving DecidableEq

/-- `combine_f107` lines 307-334, the standard branch of one while
iteration: reload only when `itime` is not already resident (with the 30-day
skip for the `'daily'` tag), keep the resident observations in
`[itime, stop)` whose value differs from `fill_val` (captured from the
standard metadata on first use, when the metadata object is aliased), and
advance the cursor; with no resident data in the window fall through to the
forecast source. -/
def f107StdBranch (standard : F107Inst) (stop : Int) (st : F107State) :
    Except CombErr F107State :=
  if st.flag = some .standard then
    let res :=
      if st.stdRes.any (fun p => p.1 == st.itime) then st.stdRes
      else if standard.tag == "daily" then loadByDate standard.arch (st.itime + 720)
      else loadByDate standard.arch st.itime
    let goodT := res.filter (fun p => decide (st.itime ≤ p.1) && decide (p.1 < stop))
    let nts := if !st.notedStd then
        st.notes ++ " the standard source (" ++ dayLabel st.itime ++ " to "
      else st.notes
    let ntd := if !st.notedStd then true else st.notedStd
    if !goodT.isEmpty then
      let fS := match st.fillSt with
        | none => some (MetaSrc.standard, standard.meta.fill)
        | s => s
      let fv := (fS.map (·.2)).getD 0
      let good := goodT.filter (fun p => p.2 != fv)
      let acc2 := st.acc ++ good
      match acc2.getLast? with
      | none => .error .indexErr
      | some lastp =>
        .ok { st with
              acc := acc2,
              stdRes := res,
              itime := lastp.1 + 24,
              fillSt := fS,
              notes := nts,
              notedStd := ntd }
    else
      .ok { st with
            flag := some .forecast,
            stdRes := res,
            notes := nts ++ dayLabel st.itime ++ ")",
            notedStd := ntd }
  else .ok st

/-- The `for filename in files` loop of `combine_f107` lines 345-366; when
`fill_val` is still `None` it is captured from the forecast metadata (and the
output metadata object becomes an alias of it), otherwise the previously
captured (standard) fill value keeps filtering the forecast data. -/
def f107FileLoop (fcMeta : MetaObj) (stop : Int) :
    List (Option (List Obs)) → List Obs → Int → List Obs → Option (MetaSrc × Int) →
      String → Bool →
    Except CombErr (List Obs × Int × List Obs × Option (MetaSrc × Int) × String × Bool)
  | [], res, itime, acc, fS, nts, noted => .ok (acc, itime, res, fS, nts, noted)
  | e :: rest, res, itime, acc, fS, nts, noted =>
    let res := match e with
      | some o => o
      | none => res
    let nts2 := if !noted then
        nts ++ " the forecast source (" ++ dayLabel itime ++ " to "
      else nts
    let ntd := if !noted then true else noted
    let fS2 := match fS with
      | none => some (MetaSrc.forecast, fcMeta.fill)
      | s => s
    let fv := (fS2.map (·.2)).getD 0
    let good := res.filter (fun p =>
      decide (itime ≤ p.1) && decide (p.1 < stop) && (p.2 != fv))
    let acc2 := acc ++ good
    match acc2.getLast? with
    | none => .error .indexErr
    | some lastp => f107FileLoop fcMeta stop rest res (lastp.1 + 24) acc2 fS2 nts2 ntd

/-- `combine_f107` lines 337-370: the forecast branch of one while
iteration. -/
def f107FcBranch (fc : F107FileInst) (stop : Int) (st : F107State) :
    Except CombErr F107State :=
  if st.flag = some .forecast then
    let entries : List (Option (List Obs)) :=
      if st.fcRes.isEmpty then (selectFiles fc.files st.itime stop).map (fun fl => some fl.obs)
      else [none]
    match f107FileLoop fc.meta stop entries st.fcRes st.itime st.acc st.fillSt st.notes st.notedFc with
    | .error e => .error e
    | .ok (acc, itime, res, fS, nts, noted) =>
      .ok { st with
            acc := acc,
            itime := itime,
            fcRes := res,
            fillSt := fS,
            flag := none,
            notes := nts ++ dayLabel itime ++ ")",
            notedFc := noted }
  else .ok st

/-- One iteration of the `combine_f107` while body. -/
def f107Iter (standard : F107Inst) (fc : F107FileInst) (stop : Int) (st : F107State) :
    Except CombErr F107State :=
  match f107StdBranch standard stop st with
  | .error e => .error e
  | .ok st1 => f107FcBranch fc stop st1

/-- `combine_f107` lines 305-370: the while loop as a fuel-indexed
recursion. -/
def f107Loop (standard : F107Inst) (fc : F107FileInst) (stop : Int) :
    Nat → F107State → Except CombErr F107State
  | 0, _ => .error .fuelOut
  | fuel + 1, st =>
    if st.itime < stop ∧ st.flag ≠ none then
      match f107Iter standard fc stop st with
      | .error e => .error e
      | .ok st2 => f107Loop standard fc stop fuel st2
    else .ok st

/-- Result of `combine_f107`: besides the tag, window, accumulator, series
and notes it records which input's metadata object the output aliases
(`metaSrc`) and the state of both inputs' metadata objects after the call
(the line-412 notes update mutates the aliased one). -/
structure F107Result where
  tag : String
  start : Int
  stop : Int
  acc : List Obs
  series : List Obs
  notes : String
  metaSrc : Option MetaSrc
  stdMeta : MetaObj
  fcMeta : MetaObj
  deriving DecidableEq

/-- `combine_f107` lines 273-276: derive `start` when it was not supplied
(identical to the `combine_kp` code of lines 81-83). -/
def deriveStartF107 (residents : List (List Obs)) (start? : Option Int) : Option Int :=
  match start? with
  | some s => some s
  | none => intListMin (residentMins residents)

/-- `combine_f107` lines 278-281: derive `stop` when it was not supplied:
`max(stimes) + pds.DateOffset(days=1) if len(stimes) > 0 else None`. -/
def deriveStopF107 (residents : List (List Obs)) (stop? : Option Int) : Option Int :=
  match stop? with
  | some s => some s
  | none => (intListMax (residentMaxs residents)).map (fun m => m + 24)

/-- `combine_f107` (sw_methods.py lines 233-414). -/
def combine_f107 (standard : F107Inst) (fc : F107FileInst)
    (start? stop? : Option Int) (fuel : Nat) : Except CombErr F107Result :=
  let stag := if standard.tag.length > 0 then standard.tag else "default"
  let tag := "combined_" ++ stag ++ "_" ++ fc.tag
  let residents := [standard.resident, fc.resident]
  let startO := deriveStartF107 residents start?
  let stopO := deriveStopF107 residents stop?
  match startO, stopO with
  | none, _ => .error .valueErr
  | some _, none => .error .valueErr
  | some start, some stop =>
    if start ≥ stop then .error .valueErr
    else
      let st0 : F107State :=
        { flag := some .standard, itime := start, acc := [],
          stdRes := standard.resident, fcRes := fc.resident, fillSt := none,
          notes := "Combines data from", notedStd := false, notedFc := false }
      match f107Loop standard fc stop fuel st0 with
      | .error e => .error e
      | .ok st =>
        let nts := if st.flag ≠ none then st.notes ++ dayLabel st.itime ++ ")" else st.notes
        -- fill_val is None only while the accumulator is empty and
        -- finalizeSeries fails on an empty accumulator, so the default
        -- below is never observable in a successful call
        let fv := (st.fillSt.map (·.2)).getD 0
        match finalizeSeries start stop st.acc fv with
        | .error e => .error e
        | .ok series =>
          let notesF := nts ++ ", in that order"
          let stdM := match st.fillSt with
            | some (.standard, _) => { standard.meta with notes := notesF }
            | _ => standard.meta
          let fcM := match st.fillSt with
            | some (.forecast, _) => { fc.meta with notes := notesF }
            | _ => fc.meta
          .ok { tag := tag, start := start, stop := stop, acc := st.acc,
                series := series, notes := notesF,
                metaSrc := st.fillSt.map (·.1), stdMeta := stdM, fcMeta := fcM }

/-- A time-indexed column of rational values, with the pandas NaN sentinel
modelled as `none`. -/
abbrev ApSeries := List (Int × Option ℚ)

/-- The tabular dataset of a pysat Instrument: named columns over a shared
time index. -/
abbrev Dataset := List (String × ApSeries)

/-- Column membership (`name in inst.data.columns`). -/
def hasCol (d : Dataset) (name : String) : Bool := d.any (fun c => c.1 == name)

/-- Column access. -/
def getCol (d : Dataset) (name : String) : ApSeries :=
  ((d.find? (fun c => c.1 == name)).map (·.2)).getD []

/-- Column assignment (`inst[name] = series`), replacing an existing column
of the same name or appending a new one. -/
def setCol (d : Dataset) (name : String) (s : ApSeries) : Dataset :=
  if hasCol d name then d.map (fun c => if c.1 == name then (name, s) else c)
  else d ++ [(name, s)]

/-- `Series.rolling(window='1D', min_periods=8).mean()` (line 454): at each
row the window holds the rows with index in `(t - 24h, t]`; NaN rows are not
counted and fewer than 8 counted rows yield NaN. -/
def rollingMean1D (s : ApSeries) : ApSeries :=
  s.map (fun p =>
    let w := (s.filter (fun q => decide (p.1 - 24 < q.1) && decide (q.1 ≤ p.1))).filterMap (·.2)
    (p.1, if 8 ≤ w.length then some (w.sum / (w.length : ℚ)) else none))

/-- Line 481-483: the positional selection of the rows of `ap_mean` whose
hour is 21. -/
def select21 (s : ApSeries) : ApSeries := s.filter (fun p => p.1 % 24 == 21)

/-- `.resample('3H').backfill()` (line 485): the 3-hourly grid from the first
to the last index entry; each slot takes the value (NaN included) of the
first original row at or after it.  The first entry sits 3 hours before a
21:00 row, hence on the 3-hour grid, so the resampling bins are the grid
slots themselves. -/
def backfill3H (entries : ApSeries) : ApSeries :=
  match entries.head?, entries.getLast? with
  | some h, some l =>
    (dateRange h.1 l.1 3).map (fun g =>
      (g, (entries.find? (fun e => decide (g ≤ e.1))).bind (·.2)))
  | _, _ => []

/-- `calc_daily_Ap` (sw_methods.py lines 416-507).  The two `ValueError`
checks of lines 446-451 run before anything else; the NaN pad of line 478
indexes `ap_mean.index[0]`, an `IndexError` on an empty column. -/
def calc_daily_Ap (ap_inst : Dataset) (ap_name daily_name : String)
    (running_name : Option String) : Except CombErr Dataset :=
  if !(hasCol ap_inst ap_name) then .error .valueErr
  else if hasCol ap_inst daily_name then .error .valueErr
  else
    let ap_mean := rollingMean1D (getCol ap_inst ap_name)
    let d1 := match running_name with
      | some rn => setCol ap_inst rn ap_mean
      | none => ap_inst
    match ap_mean.head? with
    | none => .error .indexErr
    | some p0 =>
      let ap_sel := (p0.1 - 3, (none : Option ℚ)) :: select21 ap_mean
      let ap_data := backfill3H ap_sel
      .ok (setCol d1 daily_name (ap_data.drop 1))

/-! Concrete instruments used by the counterexample and witness runs. -/

/-- Eight 3-hourly observations of value `v` covering calendar day `d`. -/
def kpDayObs (d v : Int) : List Obs := (List.range 8).map (fun k => (24 * d + 3 * (k : Int), v))

/-- A file-loaded source with no resident data and no files. -/
def fileEmpty : FileInst := { resident := [], files := [], fill := -1 }

/-- A standard Kp source whose archive holds only day 0 (value 10). -/
def kpStdA : KpInst := { resident := [], arch := kpDayObs 0 10, fill := -1 }

/-- A standard Kp source with data on days 0 and 2 but none on day 1. -/
def kpStdB : KpInst := { resident := [], arch := kpDayObs 0 1 ++ kpDayObs 2 5, fill := -1 }

/-- A recent Kp source whose single file covers days 1-3 with value 3. -/
def recB : FileInst :=
  { resident := [],
    files := [{ dates := [24, 48, 72], obs := (List.range 24).map (fun k => (24 + 3 * (k : Int), 3)) }],
    fill := -1 }

/-- A standard Kp source whose day-0 data contains one observation carrying
its own fill value `-1`. -/
def kpStdC : KpInst :=
  { resident := [], arch := [(0, 5), (3, -1), (6, 5), (9, 5), (12, 5), (15, 5), (18, 5), (21, 5)],
    fill := -1 }

/-- A recent Kp source with one file covering day 1. -/
def recC : FileInst := { resident := [], files := [{ dates := [24], obs := kpDayObs 1 2 }], fill := -7 }

/-- A standard Kp source with no data at all. -/
def kpStdE : KpInst := { resident := [], arch := [], fill := -1 }

/-- A standard Kp source with resident data whose latest timestamp is hour 21. -/
def kpStdD : KpInst := { resident := [(21, 1)], arch := kpDayObs 0 1, fill := -1 }

/-- A recent Kp source with resident data whose latest timestamp is hour 45. -/
def recD : FileInst := { resident := [(45, 2)], files := [], fill := -1 }

/-- A metadata object with recognisable original notes. -/
def metaA : MetaObj := { fill := -1, notes := "orig" }

/-- An F10.7 standard source with no data. -/
def f107StdE : F107Inst := { resident := [], arch := [], tag := "", meta := metaA }

/-- An F10.7 forecast source with no data. -/
def f107FcE : F107FileInst := { resident := [], files := [], tag := "forecast", meta := metaA }

/-- A standard Kp archive fully covering days `0 … n-1` at the 3-hour
cadence, the observation at hour `3 k` carrying value `f k`. -/
def kpFullArch (n : Nat) (f : Nat → Int) : List Obs :=
  (List.range (8 * n)).map (fun (k : Nat) => (3 * (k : Int), f k))

/-- The slice of `kpFullArch` belonging to calendar day `i`. -/
def kpDaySlice (i : Nat) (f : Nat → Int) : List Obs :=
  (List.range' (8 * i) 8).map (fun (k : Nat) => (3 * (k : Int), f k))

/-- The slices of `kpFullArch` from calendar day `i` to the end. -/
def kpSliceFrom (i n : Nat) (f : Nat → Int) : List Obs :=
  (List.range' (8 * i) (8 * (n - i))).map (fun (k : Nat) => (3 * (k : Int), f k))

/-- A standard F10.7 archive fully covering days `0 … n-1` at the daily
cadence, day `k` carrying value `f k`. -/
def f107FullArch (n : Nat) (f : Nat → Int) : List Obs :=
  (List.range n).map (fun (k : Nat) => (24 * (k : Int), f k))

/-- The observations of `f107FullArch` from day `i` to the end. -/
def f107SliceFrom (i n : Nat) (f : Nat → Int) : List Obs :=
  (List.range' i (n - i)).map (fun (k : Nat) => (24 * (k : Int), f k))

/-- An observation belonging to a file-loaded source: part of its initially
resident data or of the contents of one of its files. -/
def fileUniverse (inst : FileInst) (p : Obs) : Prop :=
  p ∈ inst.resident ∨ ∃ f, f ∈ inst.files ∧ p ∈ f.obs

/-- Where an accumulated pair may have come from, per the per-source
selection rules of the `combine_kp` sweep: the standard branch appends
loaded archive observations as they are, while the recent and forecast
branches only append observations of their own source whose value differs
from that source's own fill value and whose timestamp is below `stop`. -/
def kpOrigin (standard : Option KpInst) (recent forecast : Option FileInst) (stop : Int)
    (p : Obs) : Prop :=
  (∃ si, standard = some si ∧ p ∈ si.arch)
  ∨ (∃ ri, recent = some ri ∧ fileUniverse ri p ∧ p.2 ≠ ri.fill ∧ p.1 < stop)
  ∨ (∃ fi, forecast = some fi ∧ fileUniverse fi p ∧ p.2 ≠ fi.fill ∧ p.1 < stop)

/-- The result of the concrete `combine_kp` run of the C3 instruments. -/
def c3RunResult : KpResult :=
  ((combine_kp (some kpStdC) (some recC) none (some 0) (some 48) (-9) 20).toOption).getD
    { tag := "", start := 0, stop := 0, acc := [], series := [], notes := "" }

/-- An F10.7 standard source whose archive holds days 0-2. -/
def f107StdW : F107Inst :=
  { resident := [], arch := [(0, 100), (24, 101), (48, 102)], tag := "", meta := metaA }

/-- The result of the concrete `combine_f107` run of the C10 witness. -/
def c10RunResult : F107Result :=
  ((combine_f107 f107StdW f107FcE (some 0) (some 120) 20).toOption).getD
    { tag := "", start := 0, stop := 0, acc := [], series := [], notes := "",
      metaSrc := none, stdMeta := metaA, fcMeta := metaA }

/-- One full day of 3-hourly ap observations, all equal to 2. -/
def apDayTwo : ApSeries := (List.range 8).map (fun k => (3 * (k : Int), some (2 : ℚ)))

/-- The dataset produced by the first `calc_daily_Ap` call of the C7
witness. -/
def apDayTwoOut : Dataset :=
  ((calc_daily_Ap [("3hr_ap", apDayTwo)] "3hr_ap" "Ap" none).toOption).getD []

/-! Theorems for the claims. -/

set_option maxRecDepth 40000

/-- C1, counterexample.  The claim asserts that the output timestamp axis
covers every cadence slot of `[start, stop)`.  For `combine_kp` the canonical
axis is `date_range(start, stop - 1 day)` (line 194), so with the standard
source covering only day 0 and the window `[0, 48)` the returned axis stops
at hour 24: the 3-hourly slots 27, …, 45 of `[start, stop)` — slot 45 among
them — are absent instead of being fill-filled. -/
theorem c1_counterexample_kp_axis_misses_final_day :
    (combine_kp (some kpStdA) none (some fileEmpty) (some 0) (some 48) (-9) 20).map
        (fun r => (r.start, r.stop, r.series.map Prod.fst))
      = .ok (0, 48, [0, 3, 6, 9, 12, 15, 18, 21, 24])
    ∧ (45 : Int) ∉ [0, 3, 6, 9, 12, 15, 18, 21, 24]
    ∧ (0 : Int) ≤ 45 ∧ (45 : Int) < 48 ∧ (45 - 0) % 3 = 0 := by
  refine ⟨by rfl, by decide, by decide, by decide, by decide⟩

/-- C2, counterexample.  The standard source holds the non-fill value 5 at
hour 48 (within `[0, 96)`), but because its day 1 is empty the sweep retires
it permanently at hour 24, and the merged value at hour 48 is the recent
source's 3, not the standard source's 5. -/
theorem c2_counterexample_standard_gap :
    (combine_kp (some kpStdB) (some recB) none (some 0) (some 96) (-9) 20).map
        (fun r => r.series.find? (fun p => p.1 == 48))
      = .ok (some (48, 3))
    ∧ (48, 5) ∈ kpStdB.arch ∧ (5 : Int) ≠ kpStdB.fill
    ∧ (0 : Int) ≤ 48 ∧ (48 : Int) < 96 ∧ (3 : Int) ≠ 5 := by
  refine ⟨by rfl, by decide, by decide, by decide, by decide, by decide⟩

/-- C3, counterexample.  The standard branch of `combine_kp` (lines 123-124)
appends the entire loaded day without any fill-value filtering: the
observation `(3, -1)`, whose value is exactly the standard source's own fill
value, ends up among the accumulated pairs. -/
theorem c3_counterexample_standard_branch_unfiltered :
    (combine_kp (some kpStdC) (some recC) none (some 0) (some 48) (-9) 20).map
        (fun r => r.acc.contains (3, -1))
      = .ok true
    ∧ kpStdC.fill = -1 ∧ ((3 : Int), (-1 : Int)) ∈ kpStdC.arch := by
  refine ⟨by rfl, by decide, by decide⟩

/-- C4, counterexample.  With a valid explicit window `[0, 48)` and both
sources (standard and recent) holding zero data, `combine_kp` does not
return a fill-filled series: the accumulator stays empty and the frequency
inference on it raises `ValueError`. -/
theorem c4_counterexample_all_empty_raises :
    combine_kp (some kpStdE) (some fileEmpty) none (some 0) (some 48) (-9) 20
      = .error .valueErr := by
  rfl

/-- C5, counterexample.  With `stop` omitted, the latest resident timestamp
over the supplied Kp sources is hour 45, and `combine_kp` derives
`stop = 45 + 24 = 69` (line 88 adds one day), not the `45 + 3 = 48` that the
claim's `3 hours for the Kp variant` asserts. -/
theorem c5_counterexample_kp_stop_offset :
    (combine_kp (some kpStdD) (some recD) none none none (-9) 20).map (fun r => r.stop)
      = .ok 69
    ∧ intListMax (residentMaxs [kpStdD.resident, recD.resident]) = some 45
    ∧ (69 : Int) ≠ 45 + 3 := by
  refine ⟨by rfl, by rfl, by decide⟩

/-- C6.  When no explicit window is given and no source has resident data,
the F10.7 variant raises `ValueError` as the claim states, but the Kp
variant executes `stop += DateOffset(days=1)` on `stop = None` (line 88) and
dies with `TypeError` before its own `ValueError` guard of lines 90-92 —
the guard the parallel `combine_f107` code reaches correctly, showing the
`ValueError` was the intent. -/
theorem c6_no_window_no_data_wrong_exception :
    combine_kp (some kpStdE) (some fileEmpty) none none none (-9) 20 = .error .typeErr
    ∧ combine_f107 f107StdE f107FcE none none 20 = .error .valueErr
    ∧ CombErr.typeErr ≠ CombErr.valueErr := by
  refine ⟨by rfl, by rfl, by decide⟩

/-- C9.  When the canonical axis starts exactly at the first accumulated
timestamp and ends exactly at the last one, steps 6-7 add no entries: the
`date_range[0] < kp_times[0]` and `date_range[-1] > kp_times[-1]` guards are
both false and the accumulator passes through unchanged. -/
theorem c9_no_padding_when_window_matches (dr times values : List Int) (fill : Int)
    (hne : dr ≠ []) (hh : dr.head? = times.head?) (hl : dr.getLast? = times.getLast?) :
    padSteps dr times values fill = .ok (times, values) := by
  obtain ⟨d0, hd0⟩ : ∃ d0, dr.head? = some d0 := by
    cases dr with
    | nil => exact absurd rfl hne
    | cons a l => exact ⟨a, rfl⟩
  have ht0 : times.head? = some d0 := by rw [← hh]; exact hd0
  obtain ⟨dl, hdl⟩ : ∃ dl, dr.getLast? = some dl := by
    cases h : dr.getLast? with
    | some x => exact ⟨x, rfl⟩
    | none =>
      cases dr with
      | nil => exact absurd rfl hne
      | cons a l => simp [List.getLast?_eq_none_iff] at h
  have htl : times.getLast? = some dl := by rw [← hl]; exact hdl
  simp [padSteps, hd0, ht0, hdl, htl]

/-- C9, witness: a concrete axis and accumulator that already agree at both
ends pass through steps 6-7 untouched. -/
theorem c9_no_padding_when_window_matches_witness :
    padSteps [0, 3, 6] [0, 3, 6] [7, 7, 7] (-9) = .ok ([0, 3, 6], [7, 7, 7]) :=
  c9_no_padding_when_window_matches [0, 3, 6] [0, 3, 6] [7, 7, 7] (-9)
    (by decide) (by decide) (by decide)

/-- Assigning a column makes it present. -/
theorem hasCol_setCol_self (d : Dataset) (n : String) (s : ApSeries) :
    hasCol (setCol d n s) n = true := by
  unfold setCol
  by_cases h : hasCol d n
  · simp only [h, if_true]
    rcases List.any_eq_true.mp h with ⟨c, hc, hcn⟩
    apply List.any_eq_true.mpr
    exact ⟨(n, s), List.mem_map.mpr ⟨c, hc, by simp [hcn]⟩, by simp⟩
  · simp only [h, if_false]
    unfold hasCol
    apply List.any_eq_true.mpr
    exact ⟨(n, s), by simp, by simp⟩

/-- Assigning a column keeps every present column present. -/
theorem hasCol_setCol_of_hasCol (d : Dataset) (n m : String) (s : ApSeries)
    (h : hasCol d m = true) : hasCol (setCol d n s) m = true := by
  unfold setCol
  by_cases hn : hasCol d n
  · simp only [hn, if_true]
    rcases List.any_eq_true.mp h with ⟨c, hc, hcm⟩
    apply List.any_eq_true.mpr
    by_cases hcn : (c.1 == n) = true
    · have hnm : n = m := by
        have h1 : c.1 = n := beq_iff_eq.mp hcn
        have h2 : c.1 = m := beq_iff_eq.mp hcm
        rw [← h1, h2]
      exact ⟨(n, s), List.mem_map.mpr ⟨c, hc, by simp [hcn]⟩, by simp [hnm]⟩
    · exact ⟨c, List.mem_map.mpr ⟨c, hc, by simp [hcn]⟩, hcm⟩
  · simp only [hn, if_false]
    unfold hasCol at h ⊢
    simp [List.any_append, h]

/-- Shape of a successful `calc_daily_Ap` call: both checks passed and the
returned dataset is the input with the running column (when requested) and
the daily column assigned. -/
theorem calc_daily_Ap_ok_shape (d : Dataset) (apn dn : String) (rn : Option String)
    (d2 : Dataset) (h : calc_daily_Ap d apn dn rn = .ok d2) :
    hasCol d apn = true ∧ hasCol d dn = false ∧
    ∃ s, d2 = setCol (match rn with
      | some r => setCol d r (rollingMean1D (getCol d apn))
      | none => d) dn s := by
  unfold calc_daily_Ap at h
  by_cases h1 : hasCol d apn
  · by_cases h2 : hasCol d dn
    · simp [h1, h2] at h
    · simp only [h1, h2, Bool.not_true, Bool.not_false, if_false, if_true,
        Bool.false_eq_true] at h
      refine ⟨h1, ?_, ?_⟩
      · simpa using h2
      · split at h
        · exact absurd h (by simp)
        · injection h with h4
          exact ⟨_, h4.symm⟩
  · simp [h1] at h

/-- C7.  `calc_daily_Ap` raises `ValueError` exactly when the requested daily
column already exists or the 3-hourly input column is absent (its two checks,
lines 446-451, run before the dataset is touched, so an erroring call returns
no modified dataset), and a successful call adds the daily column, so a
second call with the same `daily_name` raises `ValueError`. -/
theorem c7_validation_checks (d : Dataset) (apn dn : String) (rn : Option String) :
    (calc_daily_Ap d apn dn rn = .error .valueErr
      ↔ (hasCol d dn = true ∨ hasCol d apn = false))
    ∧ (∀ d2, calc_daily_Ap d apn dn rn = .ok d2 →
        calc_daily_Ap d2 apn dn rn = .error .valueErr) := by
  constructor
  · constructor
    · intro h
      by_cases h1 : hasCol d apn
      · by_cases h2 : hasCol d dn
        · exact Or.inl h2
        · exfalso
          unfold calc_daily_Ap at h
          simp only [h1, h2, Bool.not_true, Bool.false_eq_true, if_false] at h
          split at h
          · exact absurd h (by simp)
          · exact absurd h (by simp)
      · exact Or.inr (by simpa using h1)
    · intro h
      unfold calc_daily_Ap
      by_cases h1 : hasCol d apn
      · rcases h with h2 | h2
        · simp [h1, h2]
        · rw [h1] at h2; exact absurd h2 (by simp)
      · simp [h1]
  · intro d2 h
    obtain ⟨hap, hdn, s, rfl⟩ := calc_daily_Ap_ok_shape d apn dn rn d2 h
    cases rn with
    | none =>
      have hap2 : hasCol (setCol d dn s) apn = true :=
        hasCol_setCol_of_hasCol _ _ _ _ hap
      have hdn2 : hasCol (setCol d dn s) dn = true := hasCol_setCol_self _ _ _
      unfold calc_daily_Ap
      simp [hap2, hdn2]
    | some r =>
      have hap2 : hasCol (setCol (setCol d r (rollingMean1D (getCol d apn))) dn s) apn = true :=
        hasCol_setCol_of_hasCol _ _ _ _ (hasCol_setCol_of_hasCol _ _ _ _ hap)
      have hdn2 : hasCol (setCol (setCol d r (rollingMean1D (getCol d apn))) dn s) dn = true :=
        hasCol_setCol_self _ _ _
      unfold calc_daily_Ap
      simp [hap2, hdn2]

/-- C7, witness: on a concrete one-day dataset the first call succeeds and
the second call with the same `daily_name` raises `ValueError`. -/
theorem c7_validation_checks_witness :
    calc_daily_Ap [("3hr_ap", apDayTwo)] "3hr_ap" "Ap" none = .ok apDayTwoOut
    ∧ calc_daily_Ap apDayTwoOut "3hr_ap" "Ap" none = .error .valueErr := by
  refine ⟨by rfl, ?_⟩
  exact (c7_validation_checks [("3hr_ap", apDayTwo)] "3hr_ap" "Ap" none).2 apDayTwoOut (by rfl)

/-- The seed of a max fold is below the result. -/
theorem le_foldl_max (r : List Int) (a : Int) : a ≤ r.foldl max a := by
  induction r generalizing a with
  | nil => exact le_refl a
  | cons b r ih => exact le_trans (le_max_left a b) (ih (max a b))

/-- A max fold returns its seed or a member. -/
theorem foldl_max_mem (r : List Int) (a : Int) : r.foldl max a = a ∨ r.foldl max a ∈ r := by
  induction r generalizing a with
  | nil => exact Or.inl rfl
  | cons b r ih =>
    rcases ih (max a b) with h | h
    · rcases max_choice a b with hm | hm
      · exact Or.inl (by rw [List.foldl_cons, h, hm])
      · exact Or.inr (by rw [List.foldl_cons, h, hm]; exact List.mem_cons_self b r)
    · exact Or.inr (List.mem_cons_of_mem b h)

/-- Every member is below a max fold. -/
theorem mem_le_foldl_max (r : List Int) (a : Int) : ∀ x ∈ r, x ≤ r.foldl max a := by
  induction r generalizing a with
  | nil => intro x hx; cases hx
  | cons b r ih =>
    intro x hx
    rcases List.mem_cons.mp hx with rfl | hx
    · exact le_trans (le_max_right a x) (le_foldl_max r (max a x))
    · exact ih (max a b) x hx

/-- `intListMax` returns a member that dominates the list. -/
theorem intListMax_spec (l : List Int) (m : Int) (h : intListMax l = some m) :
    m ∈ l ∧ ∀ t ∈ l, t ≤ m := by
  cases l with
  | nil => cases h
  | cons a r =>
    injection h with h
    constructor
    · rw [← h]
      rcases foldl_max_mem r a with h2 | h2
      · rw [h2]; exact List.mem_cons_self a r
      · exact List.mem_cons_of_mem a h2
    · intro t ht
      rw [← h]
      rcases List.mem_cons.mp ht with rfl | ht
      · exact le_foldl_max r t
      · exact mem_le_foldl_max r a t ht

/-- C5, amended.  When `stop` is omitted and some source has resident data,
both variants derive `stop` as the maximum resident timestamp plus one
calendar day — `combine_kp` line 88 and `combine_f107` line 281 both add
`DateOffset(days=1)` — and `m` is indeed the largest latest-resident
timestamp over the supplied sources. -/
theorem c5_amended_stop_plus_one_day (residents : List (List Obs)) (m : Int)
    (h : intListMax (residentMaxs residents) = some m) :
    deriveStopKp residents none = .ok (m + 24)
    ∧ deriveStopF107 residents none = some (m + 24)
    ∧ m ∈ residentMaxs residents ∧ ∀ t ∈ residentMaxs residents, t ≤ m := by
  refine ⟨by simp [deriveStopKp, h], by simp [deriveStopF107, h], ?_, ?_⟩
  · exact (intListMax_spec _ m h).1
  · exact (intListMax_spec _ m h).2

/-- C5, amended, witness: with latest resident timestamps 21 and 45, both
variants derive `stop = 45 + 24 = 69`. -/
theorem c5_amended_stop_plus_one_day_witness :
    deriveStopKp [[(21, 1)], [(45, 2)]] none = .ok (45 + 24)
    ∧ deriveStopF107 [[(21, 1)], [(45, 2)]] none = some (45 + 24)
    ∧ (45 : Int) ∈ residentMaxs [[(21, 1)], [(45, 2)]]
    ∧ ∀ t ∈ residentMaxs [[(21, 1)], [(45, 2)]], t ≤ 45 :=
  c5_amended_stop_plus_one_day [[(21, 1)], [(45, 2)]] 45 (by rfl)

/-- C4, amended.  With a valid explicit window and every supplied source
holding zero data (empty archive, no resident data, no files), the sweep
accumulates nothing, and the merge raises `ValueError` in the frequency
inference on the empty accumulator rather than returning a fill-filled
series; a zero-data source is retired silently only while another source
still supplies data. -/
theorem c4_amended_all_empty_error (std : KpInst) (rec : FileInst) (start stop fill : Int)
    (fuel : Nat) (harch : std.arch = []) (hres : rec.resident = []) (hfiles : rec.files = [])
    (hw : start < stop) (hfuel : 2 ≤ fuel) :
    combine_kp (some std) (some rec) none (some start) (some stop) fill fuel
      = .error .valueErr := by
  obtain ⟨k, rfl⟩ : ∃ k, fuel = k + 2 := ⟨fuel - 2, by omega⟩
  simp [combine_kp, deriveStopKp, deriveStartKp, kpLoop, kpIter, kpStdBranch,
    kpRecentBranch, kpForecastBranch, kpFileLoop, loadByDate, selectFiles,
    harch, hres, hfiles, hw, finalizeSeries, calcFreq, consecDiffs, intListMin]

/-- C4, amended, witness: the concrete all-empty invocation of the
counterexample instruments indeed errors. -/
theorem c4_amended_all_empty_error_witness :
    combine_kp (some kpStdE) (some fileEmpty) none (some 0) (some 48) (-9) 2
      = .error .valueErr :=
  c4_amended_all_empty_error kpStdE fileEmpty 0 48 (-9) 2 (by rfl) (by rfl) (by rfl)
    (by decide) (by decide)

/-- Through the forecast file loop, `fill_val` is captured as soon as the
accumulator can be non-empty: the loop preserves `acc ≠ [] → fill_val set`. -/
theorem f107FileLoop_fillSt (mt : MetaObj) (stop : Int) :
    ∀ (entries : List (Option (List Obs))) (res : List Obs) (itime : Int) (acc : List Obs)
      (fS : Option (MetaSrc × Int)) (nts : String) (noted : Bool)
      (out : List Obs × Int × List Obs × Option (MetaSrc × Int) × String × Bool),
      f107FileLoop mt stop entries res itime acc fS nts noted = .ok out →
      (acc ≠ [] → fS.isSome) → (out.1 ≠ [] → out.2.2.2.1.isSome) := by
  intro entries
  induction entries with
  | nil =>
    intro res itime acc fS nts noted out h hinv
    simp only [f107FileLoop] at h
    injection h with h
    subst h
    exact hinv
  | cons e rest ih =>
    intro res itime acc fS nts noted out h hinv
    simp only [f107FileLoop] at h
    split at h
    · exact absurd h (by simp)
    · refine ih _ _ _ _ _ _ out h (fun _ => ?_)
      cases fS <;> simp

/-- The standard branch of the F10.7 sweep preserves `acc ≠ [] → fill_val
set`: whenever it can append, it has just captured the fill value. -/
theorem f107StdBranch_fillSt (std : F107Inst) (stop : Int) (st st' : F107State)
    (h : f107StdBranch std stop st = .ok st')
    (hinv : st.acc ≠ [] → st.fillSt.isSome) : st'.acc ≠ [] → st'.fillSt.isSome := by
  by_cases hf : st.flag = some .standard
  · simp only [f107StdBranch, hf, if_true] at h
    repeat' split at h
    all_goals try exact Except.noConfusion h
    all_goals
      injection h with h
      subst h
      intro hne
      first
        | exact hinv hne
        | rfl
        | (cases hfs : st.fillSt with
            | none => exact absurd hfs (by assumption)
            | some v => rfl)
  · simp only [f107StdBranch, hf, if_false] at h
    injection h with h
    subst h
    exact hinv

/-- The forecast branch of the F10.7 sweep preserves `acc ≠ [] → fill_val
set`. -/
theorem f107FcBranch_fillSt (fc : F107FileInst) (stop : Int) (st st' : F107State)
    (h : f107FcBranch fc stop st = .ok st')
    (hinv : st.acc ≠ [] → st.fillSt.isSome) : st'.acc ≠ [] → st'.fillSt.isSome := by
  by_cases hf : st.flag = some .forecast
  · simp only [f107FcBranch, hf, if_true] at h
    by_cases hres : st.fcRes.isEmpty
    all_goals simp only [hres, if_true, if_false, Bool.false_eq_true] at h
    all_goals
      split at h
      case _ => exact Except.noConfusion h
      case _ acc2 itime2 res2 fS2 nts2 noted2 hout =>
        injection h with h
        subst h
        exact f107FileLoop_fillSt fc.meta stop _ _ _ _ _ _ _
          (acc2, itime2, res2, fS2, nts2, noted2) hout hinv
  · simp only [f107FcBranch, hf, if_false] at h
    injection h with h
    subst h
    exact hinv

/-- One F10.7 while iteration preserves `acc ≠ [] → fill_val set`. -/
theorem f107Iter_fillSt (std : F107Inst) (fc : F107FileInst) (stop : Int) (st st' : F107State)
    (h : f107Iter std fc stop st = .ok st')
    (hinv : st.acc ≠ [] → st.fillSt.isSome) : st'.acc ≠ [] → st'.fillSt.isSome := by
  simp only [f107Iter] at h
  split at h
  · exact Except.noConfusion h
  · rename_i st1 h1
    exact f107FcBranch_fillSt fc stop st1 st' h (f107StdBranch_fillSt std stop st st1 h1 hinv)

/-- The whole F10.7 sweep preserves `acc ≠ [] → fill_val set`. -/
theorem f107Loop_fillSt (std : F107Inst) (fc : F107FileInst) (stop : Int) :
    ∀ (fuel : Nat) (st st' : F107State), f107Loop std fc stop fuel st = .ok st' →
      (st.acc ≠ [] → st.fillSt.isSome) → (st'.acc ≠ [] → st'.fillSt.isSome) := by
  intro fuel
  induction fuel with
  | zero => intro st st' h; exact Except.noConfusion h
  | succ k ih =>
    intro st st' h hinv
    simp only [f107Loop] at h
    split at h
    · split at h
      · exact Except.noConfusion h
      · rename_i st2 h2
        exact ih st2 st' h (f107Iter_fillSt std fc stop st st2 h2 hinv)
    · injection h with h
      subst h
      exact hinv

/-- A successful finalize needs at least two accumulated timestamps (the
frequency inference fails otherwise), so in particular a non-empty
accumulator. -/
theorem finalizeSeries_ok_acc_ne_nil (start stop : Int) (acc : List Obs) (fill : Int)
    (s : List Obs) (h : finalizeSeries start stop acc fill = .ok s) : acc ≠ [] := by
  intro he
  subst he
  simp [finalizeSeries, calcFreq, consecDiffs, intListMin] at h

/-- C10.  Every successful `combine_f107` call aliases its output metadata
object to one of the two input instruments' metadata objects — the standard
source's when it contributed window-overlapping data, otherwise the forecast
source's — and the final provenance-notes update of line 412 therefore
mutates that input instrument's metadata notes (the other input's metadata
is untouched). -/
theorem c10_meta_aliasing_mutation (std : F107Inst) (fc : F107FileInst)
    (start? stop? : Option Int) (fuel : Nat) (r : F107Result)
    (h : combine_f107 std fc start? stop? fuel = .ok r)
    (hstd : ∀ s, std.meta.notes ≠ s ++ ", in that order")
    (hfc : ∀ s, fc.meta.notes ≠ s ++ ", in that order") :
    ∃ src, r.metaSrc = some src
      ∧ (src = MetaSrc.standard →
          r.stdMeta.notes = r.notes ∧ r.stdMeta.notes ≠ std.meta.notes ∧ r.fcMeta = fc.meta)
      ∧ (src = MetaSrc.forecast →
          r.fcMeta.notes = r.notes ∧ r.fcMeta.notes ≠ fc.meta.notes ∧ r.stdMeta = std.meta) := by
  simp only [combine_f107] at h
  split at h
  · exact absurd h (by simp)
  · exact absurd h (by simp)
  · rename_i start stop hso hpo
    split at h
    · exact absurd h (by simp)
    · split at h
      · exact absurd h (by simp)
      · rename_i st hloop
        split at h
        · exact absurd h (by simp)
        · rename_i series hfin
          have hacc : st.acc ≠ [] := finalizeSeries_ok_acc_ne_nil _ _ _ _ _ hfin
          have hfill : st.fillSt.isSome :=
            f107Loop_fillSt std fc stop fuel _ st hloop (fun he => absurd rfl he) hacc
          obtain ⟨⟨src, fv⟩, hfs⟩ := Option.isSome_iff_exists.mp hfill
          injection h with h
          subst h
          refine ⟨src, ?_, ?_, ?_⟩
          · simp [hfs]
          · intro hsrc
            subst hsrc
            cases st.flag <;> simp_all <;>
              exact fun heq => hstd _ heq.symm
          · intro hsrc
            subst hsrc
            cases st.flag <;> simp_all <;>
              exact fun heq => hfc _ heq.symm

/-- C10, witness: in the concrete run the standard source contributed, the
output metadata aliases its metadata object, and that object's notes were
rewritten by the final provenance update. -/
theorem c10_meta_aliasing_mutation_witness :
    ∃ src, c10RunResult.metaSrc = some src
      ∧ (src = MetaSrc.standard →
          c10RunResult.stdMeta.notes = c10RunResult.notes
          ∧ c10RunResult.stdMeta.notes ≠ f107StdW.meta.notes
          ∧ c10RunResult.fcMeta = f107FcE.meta)
      ∧ (src = MetaSrc.forecast →
          c10RunResult.fcMeta.notes = c10RunResult.notes
          ∧ c10RunResult.fcMeta.notes ≠ f107FcE.meta.notes
          ∧ c10RunResult.stdMeta = f107StdW.meta) := by
  refine c10_meta_aliasing_mutation f107StdW f107FcE (some 0) (some 120) 20 c10RunResult
    (by rfl) ?_ ?_
  all_goals
    intro s heq
    have hlen : ("orig" : String).length = (s ++ ", in that order").length :=
      congrArg String.length heq
    rw [String.length_append] at hlen
    have h4 : ("orig" : String).length = 4 := by rfl
    have h15 : (", in that order" : String).length = 15 := by rfl
    omega

/-- Soundness of the file loop: every pair it appends comes from the active
source's data (`U`), has a value different from the source's fill value and a
timestamp below `stop`; and the resident data it leaves behind stays within
the source's data. -/
theorem kpFileLoop_sound (fill stop : Int) (label : String) (U : Obs → Prop) :
    ∀ (entries : List (Option (List Obs))) (res : List Obs) (itime : Int) (acc : List Obs)
      (nts : String) (noted : Bool) (out : List Obs × Int × List Obs × String × Bool),
      kpFileLoop fill stop label entries res itime acc nts noted = .ok out →
      (∀ p ∈ res, U p) →
      (∀ o ∈ entries, ∀ l, o = some l → ∀ p ∈ l, U p) →
      (∀ p ∈ out.1, p ∈ acc ∨ (U p ∧ p.2 ≠ fill ∧ p.1 < stop))
        ∧ (∀ p ∈ out.2.2.1, U p) := by
  intro entries
  induction entries with
  | nil =>
    intro res itime acc nts noted out h hres _
    simp only [kpFileLoop] at h
    injection h with h
    subst h
    exact ⟨fun p hp => Or.inl hp, hres⟩
  | cons e rest ih =>
    intro res itime acc nts noted out h hres hent
    have hent2 : ∀ o ∈ rest, ∀ l, o = some l → ∀ p ∈ l, U p :=
      fun o ho => hent o (List.mem_cons_of_mem _ ho)
    have hres2 : ∀ p ∈ (match e with | some o => o | none => res), U p := by
      cases e with
      | none => exact hres
      | some l => exact hent (some l) (List.mem_cons_self _ _) l rfl
    simp only [kpFileLoop] at h
    have hgood : ∀ p ∈ (match e with | some o => o | none => res).filter (fun (p : Obs) =>
        decide (itime ≤ p.1) && decide (p.1 < stop) && (p.2 != fill)),
        U p ∧ p.2 ≠ fill ∧ p.1 < stop := by
      intro p hp
      have hm := List.mem_of_mem_filter hp
      have hpred := List.of_mem_filter hp
      simp only [Bool.and_eq_true, decide_eq_true_eq, bne_iff_ne] at hpred
      exact ⟨hres2 p hm, hpred.2, hpred.1.2⟩
    repeat' split at h
    all_goals try exact Except.noConfusion h
    all_goals
      obtain ⟨h1, h2⟩ := ih _ _ _ _ _ out h hres2 hent2
      refine ⟨?_, h2⟩
      intro p hp
      rcases h1 p hp with hmem | hprops
      · rcases List.mem_append.mp hmem with hmem | hmem
        · exact Or.inl hmem
        · exact Or.inr (hgood p hmem)
      · exact Or.inr hprops

/-- Soundness of the standard branch: it may only append loaded archive
observations, and it does not touch the recent/forecast resident data. -/
theorem kpStdBranch_sound (standard : Option KpInst) (recent : Option FileInst)
    (st st' : KpState) (h : kpStdBranch standard recent st = .ok st') :
    (∀ p ∈ st'.acc, p ∈ st.acc ∨ ∃ si, standard = some si ∧ p ∈ si.arch)
      ∧ st'.recRes = st.recRes ∧ st'.fcRes = st.fcRes := by
  by_cases hf : st.flag = some .standard
  · simp only [kpStdBranch, hf, if_true] at h
    cases standard with
    | none => exact Except.noConfusion h
    | some si =>
      simp only at h
      repeat' split at h
      all_goals try exact Except.noConfusion h
      all_goals
        injection h with h
        subst h
        refine ⟨?_, rfl, rfl⟩
        intro p hp
        first
          | exact Or.inl hp
          | (rcases List.mem_append.mp hp with hmem | hmem
             · exact Or.inl hmem
             · exact Or.inr ⟨si, rfl, List.mem_of_mem_filter hmem⟩)
  · simp only [kpStdBranch, hf, if_false] at h
    injection h with h
    subst h
    exact ⟨fun p hp => Or.inl hp, rfl, rfl⟩

/-- Soundness of the recent branch: appended pairs come from the recent
source, pass its fill filter and lie below `stop`; the recent resident data
stays within the recent source; the forecast resident data is untouched. -/
theorem kpRecentBranch_sound (recent forecast : Option FileInst) (stop : Int)
    (st st' : KpState) (h : kpRecentBranch recent forecast stop st = .ok st')
    (hres : ∀ ri, recent = some ri → ∀ p ∈ st.recRes, fileUniverse ri p) :
    (∀ p ∈ st'.acc, p ∈ st.acc
        ∨ ∃ ri, recent = some ri ∧ fileUniverse ri p ∧ p.2 ≠ ri.fill ∧ p.1 < stop)
      ∧ (∀ ri, recent = some ri → ∀ p ∈ st'.recRes, fileUniverse ri p)
      ∧ st'.fcRes = st.fcRes := by
  by_cases hf : st.flag = some .recent
  · simp only [kpRecentBranch, hf, if_true] at h
    cases recent with
    | none => exact Except.noConfusion h
    | some ri =>
      simp only at h
      split at h
      · exact Except.noConfusion h
      · rename_i acc2 itime2 res2 nts2 noted2 hout
        injection h with h
        subst h
        have hu := kpFileLoop_sound ri.fill stop "recent" (fileUniverse ri) _ _ _ _ _ _
          (acc2, itime2, res2, nts2, noted2) hout (hres ri rfl) ?_
        · refine ⟨?_, ?_, rfl⟩
          · intro p hp
            rcases hu.1 p hp with hmem | hprops
            · exact Or.inl hmem
            · exact Or.inr ⟨ri, rfl, hprops⟩
          · intro ri2 hri2 p hp
            injection hri2 with hri2
            subst hri2
            exact hu.2 p hp
        · intro o ho l hol p hp
          subst hol
          by_cases hsel : st.recRes.isEmpty
          · rw [if_pos hsel] at ho
            rcases List.mem_map.mp ho with ⟨f, hf2, hfe⟩
            injection hfe with hfe
            subst hfe
            exact Or.inr ⟨f, List.mem_of_mem_filter hf2, hp⟩
          · rw [if_neg hsel] at ho
            simp at ho
  · simp only [kpRecentBranch, hf, if_false] at h
    injection h with h
    subst h
    exact ⟨fun p hp => Or.inl hp, hres, rfl⟩

/-- Soundness of the forecast branch, symmetric to the recent branch. -/
theorem kpForecastBranch_sound (forecast : Option FileInst) (stop : Int)
    (st st' : KpState) (h : kpForecastBranch forecast stop st = .ok st')
    (hres : ∀ fi, forecast = some fi → ∀ p ∈ st.fcRes, fileUniverse fi p) :
    (∀ p ∈ st'.acc, p ∈ st.acc
        ∨ ∃ fi, forecast = some fi ∧ fileUniverse fi p ∧ p.2 ≠ fi.fill ∧ p.1 < stop)
      ∧ (∀ fi, forecast = some fi → ∀ p ∈ st'.fcRes, fileUniverse fi p)
      ∧ st'.recRes = st.recRes := by
  by_cases hf : st.flag = some .forecast
  · simp only [kpForecastBranch, hf, if_true] at h
    cases forecast with
    | none => exact Except.noConfusion h
    | some fi =>
      simp only at h
      split at h
      · exact Except.noConfusion h
      · rename_i acc2 itime2 res2 nts2 noted2 hout
        injection h with h
        subst h
        have hu := kpFileLoop_sound fi.fill stop "forecast" (fileUniverse fi) _ _ _ _ _ _
          (acc2, itime2, res2, nts2, noted2) hout (hres fi rfl) ?_
        · refine ⟨?_, ?_, rfl⟩
          · intro p hp
            rcases hu.1 p hp with hmem | hprops
            · exact Or.inl hmem
            · exact Or.inr ⟨fi, rfl, hprops⟩
          · intro fi2 hfi2 p hp
            injection hfi2 with hfi2
            subst hfi2
            exact hu.2 p hp
        · intro o ho l hol p hp
          subst hol
          by_cases hsel : st.fcRes.isEmpty
          · rw [if_pos hsel] at ho
            rcases List.mem_map.mp ho with ⟨f, hf2, hfe⟩
            injection hfe with hfe
            subst hfe
            exact Or.inr ⟨f, List.mem_of_mem_filter hf2, hp⟩
          · rw [if_neg hsel] at ho
            simp at ho
  · simp only [kpForecastBranch, hf, if_false] at h
    injection h with h
    subst h
    exact ⟨fun p hp => Or.inl hp, hres, rfl⟩

/-- Soundness of one while iteration of the Kp sweep. -/
theorem kpIter_sound (standard : Option KpInst) (recent forecast : Option FileInst)
    (stop : Int) (st st' : KpState) (h : kpIter standard recent forecast stop st = .ok st')
    (hrec : ∀ ri, recent = some ri → ∀ p ∈ st.recRes, fileUniverse ri p)
    (hfc : ∀ fi, forecast = some fi → ∀ p ∈ st.fcRes, fileUniverse fi p) :
    (∀ p ∈ st'.acc, p ∈ st.acc ∨ kpOrigin standard recent forecast stop p)
      ∧ (∀ ri, recent = some ri → ∀ p ∈ st'.recRes, fileUniverse ri p)
      ∧ (∀ fi, forecast = some fi → ∀ p ∈ st'.fcRes, fileUniverse fi p) := by
  simp only [kpIter] at h
  split at h
  · exact Except.noConfusion h
  · rename_i st1 h1
    split at h
    · exact Except.noConfusion h
    · rename_i st2 h2
      obtain ⟨a1, e1r, e1f⟩ := kpStdBranch_sound standard recent st st1 h1
      obtain ⟨a2, r2, e2f⟩ := kpRecentBranch_sound recent forecast stop st1 st2 h2
        (by rw [e1r]; exact hrec)
      obtain ⟨a3, f3, e3r⟩ := kpForecastBranch_sound forecast stop st2 st' h
        (by rw [e2f, e1f]; exact hfc)
      refine ⟨?_, ?_, f3⟩
      · intro p hp
        rcases a3 p hp with hp2 | ho
        · rcases a2 p hp2 with hp1 | ho
          · rcases a1 p hp1 with hp0 | ho
            · exact Or.inl hp0
            · exact Or.inr (Or.inl ho)
          · exact Or.inr (Or.inr (Or.inl ho))
        · exact Or.inr (Or.inr (Or.inr ho))
      · rw [e3r]
        exact r2

/-- Soundness of the whole Kp sweep. -/
theorem kpLoop_sound (standard : Option KpInst) (recent forecast : Option FileInst)
    (stop : Int) :
    ∀ (fuel : Nat) (st st' : KpState), kpLoop standard recent forecast stop fuel st = .ok st' →
      (∀ ri, recent = some ri → ∀ p ∈ st.recRes, fileUniverse ri p) →
      (∀ fi, forecast = some fi → ∀ p ∈ st.fcRes, fileUniverse fi p) →
      ∀ p ∈ st'.acc, p ∈ st.acc ∨ kpOrigin standard recent forecast stop p := by
  intro fuel
  induction fuel with
  | zero => intro st st' h; exact Except.noConfusion h
  | succ k ih =>
    intro st st' h hrec hfc
    simp only [kpLoop] at h
    split at h
    · split at h
      · exact Except.noConfusion h
      · rename_i st2 h2
        obtain ⟨a2, r2, f2⟩ := kpIter_sound standard recent forecast stop st st2 h2 hrec hfc
        intro p hp
        rcases ih st2 st' h r2 f2 p hp with hp2 | ho
        · exact a2 p hp2
        · exact Or.inr ho
    · injection h with h
      subst h
      exact fun p hp => Or.inl hp

/-- C3, amended.  Every pair accumulated by a successful `combine_kp` run
either is a standard-archive observation appended verbatim by the standard
branch (which does not filter), or comes from the recent/forecast source,
differs from that source's own fill value and has a timestamp below `stop`
(the recent and forecast branches keep, per iteration, exactly the resident
observations in `[itime, stop)` that pass their source's own fill filter). -/
theorem combine_kp_ok_inv (standard : Option KpInst) (recent forecast : Option FileInst)
    (start? stop? : Option Int) (fill : Int) (fuel : Nat) (r : KpResult)
    (h : combine_kp standard recent forecast start? stop? fill fuel = .ok r) :
    ∃ (stop : Int) (st0 st : KpState),
      kpLoop standard recent forecast stop fuel st0 = .ok st
      ∧ st0.acc = []
      ∧ st0.recRes = (recent.map (·.resident)).getD []
      ∧ st0.fcRes = (forecast.map (·.resident)).getD []
      ∧ r.acc = st.acc ∧ r.stop = stop
      ∧ finalizeSeries st0.itime stop st.acc fill = .ok r.series
      ∧ r.start = st0.itime := by
  simp only [combine_kp] at h
  repeat' split at h
  all_goals try exact Except.noConfusion h
  all_goals
    injection h with h
    subst h
    exact ⟨_, _, _, by assumption, rfl, rfl, rfl, rfl, rfl, by assumption, rfl⟩

/-- C3, amended.  Every pair accumulated by a successful `combine_kp` run
either is a standard-archive observation appended verbatim by the standard
branch (which does not filter), or comes from the recent/forecast source,
differs from that source's own fill value and has a timestamp below `stop`
(the recent and forecast branches keep, per iteration, exactly the resident
observations in `[itime, stop)` that pass their source's own fill filter). -/
theorem c3_amended_file_branch_filtering (standard : Option KpInst)
    (recent forecast : Option FileInst) (start? stop? : Option Int) (fill : Int)
    (fuel : Nat) (r : KpResult)
    (h : combine_kp standard recent forecast start? stop? fill fuel = .ok r) :
    ∀ p ∈ r.acc, kpOrigin standard recent forecast r.stop p := by
  obtain ⟨stop, st0, st, hloop, hacc0, hrec0, hfc0, hacc, hstop, -, -⟩ :=
    combine_kp_ok_inv standard recent forecast start? stop? fill fuel r h
  intro p hp
  rw [hacc] at hp
  have hsound := kpLoop_sound standard recent forecast stop fuel st0 st hloop ?_ ?_ p hp
  · rcases hsound with hmem | ho
    · rw [hacc0] at hmem
      exact absurd hmem (List.not_mem_nil p)
    · rw [hstop]
      exact ho
  · intro ri hri q hq
    rw [hrec0, hri] at hq
    simp at hq
    exact Or.inl hq
  · intro fi hfi q hq
    rw [hfc0, hfi] at hq
    simp at hq
    exact Or.inl hq

/-- C3, amended, witness: in the concrete run the accumulated pair `(27, 2)`
does satisfy the origin discipline (it comes from the recent source's file,
passes that source's fill filter and precedes `stop`). -/
theorem c3_amended_file_branch_filtering_witness :
    kpOrigin (some kpStdC) (some recC) none c3RunResult.stop (27, 2) := by
  have h : combine_kp (some kpStdC) (some recC) none (some 0) (some 48) (-9) 20
      = .ok c3RunResult := by rfl
  exact c3_amended_file_branch_filtering (some kpStdC) (some recC) none (some 0) (some 48)
    (-9) 20 c3RunResult h (27, 2) (by decide)

/-- `dayStart` on a natural-number timestamp. -/
theorem dayStart_natCast (a : Nat) : dayStart (a : Int) = ((24 * (a / 24) : Nat) : Int) := by
  unfold dayStart
  have h : ((a : Int)).fdiv 24 = ((a / 24 : Nat) : Int) := by
    rw [show (24 : Int) = ((24 : Nat) : Int) from rfl, ← Int.ofNat_fdiv]
  rw [h]
  push_cast
  ring

/-- The 3-hourly grid positions whose slot lies in calendar day `i`. -/
theorem range_filter_div8 (n i : Nat) (hi : i < n) :
    ((List.range (8 * n)).filter (fun k => k / 8 == i)) = List.range' (8 * i) 8 := by
  rw [List.range_eq_range']
  have e1 : 8 * n = (8 * n - 8 * i) + 8 * i := by omega
  rw [e1, ← List.range'_append_1 0 (8 * i) (8 * n - 8 * i), Nat.zero_add]
  have e2 : 8 * n - 8 * i = (8 * n - 8 * i - 8) + 8 := by omega
  rw [e2, ← List.range'_append_1 (8 * i) 8 (8 * n - 8 * i - 8)]
  rw [List.filter_append, List.filter_append]
  have h1 : (List.range' 0 (8 * i)).filter (fun k => k / 8 == i) = [] := by
    apply List.filter_eq_nil_iff.mpr
    intro a ha
    rcases List.mem_range'.mp ha with ⟨j, hj, rfl⟩
    simp only [beq_iff_eq]
    omega
  have h2 : (List.range' (8 * i) 8).filter (fun k => k / 8 == i) = List.range' (8 * i) 8 := by
    apply List.filter_eq_self.mpr
    intro a ha
    rcases List.mem_range'.mp ha with ⟨j, hj, rfl⟩
    simp only [beq_iff_eq]
    omega
  have h3 : (List.range' (8 * i + 8) (8 * n - 8 * i - 8)).filter (fun k => k / 8 == i) = [] := by
    apply List.filter_eq_nil_iff.mpr
    intro a ha
    rcases List.mem_range'.mp ha with ⟨j, hj, rfl⟩
    simp only [beq_iff_eq]
    omega
  rw [h1, h2, h3]
  simp

/-- Loading day `i` from a fully covered Kp archive yields exactly that
day's slice. -/
theorem loadByDate_kpFullArch (n i : Nat) (f : Nat → Int) (hi : i < n) :
    loadByDate (kpFullArch n f) (24 * (i : Int)) = kpDaySlice i f := by
  unfold loadByDate kpFullArch kpDaySlice
  rw [List.filter_map]
  have hc : ∀ k ∈ List.range (8 * n),
      ((fun (p : Obs) => dayStart p.1 == dayStart (24 * (i : Int)))
        ∘ (fun (k : Nat) => ((3 * (k : Int), f k) : Obs))) k = (fun k => k / 8 == i) k := by
    intro k _
    simp only [Function.comp]
    have h1 : dayStart (3 * (k : Int)) = ((24 * (3 * k / 24) : Nat) : Int) := by
      rw [show (3 * (k : Int)) = ((3 * k : Nat) : Int) by push_cast; ring, dayStart_natCast]
    have h2 : dayStart (24 * (i : Int)) = ((24 * (24 * i / 24) : Nat) : Int) := by
      rw [show (24 * (i : Int)) = ((24 * i : Nat) : Int) by push_cast; ring, dayStart_natCast]
    rw [h1, h2, Bool.eq_iff_iff]
    simp only [beq_iff_eq, Int.natCast_inj]
    omega
  rw [List.filter_congr hc, range_filter_div8 n i hi]

/-- A day slice is never empty. -/
theorem kpDaySlice_isEmpty (i : Nat) (f : Nat → Int) : (kpDaySlice i f).isEmpty = false := rfl

/-- The last observation of day slice `i` sits at grid position `8 i + 7`. -/
theorem kpDaySlice_getLast? (i : Nat) (f : Nat → Int) :
    (kpDaySlice i f).getLast? = some (3 * ((8 * i + 7 : Nat) : Int), f (8 * i + 7)) := rfl

/-- No slice remains beyond the last day. -/
theorem kpSliceFrom_self (n : Nat) (f : Nat → Int) : kpSliceFrom n n f = [] := by
  simp [kpSliceFrom, Nat.sub_self]

/-- Peeling one day off the remaining slices. -/
theorem kpDaySlice_append (i n : Nat) (f : Nat → Int) (hi : i < n) :
    kpDaySlice i f ++ kpSliceFrom (i + 1) n f = kpSliceFrom i n f := by
  unfold kpDaySlice kpSliceFrom
  rw [← List.map_append]
  congr 1
  rw [show 8 * (i + 1) = 8 * i + 8 by ring]
  rw [List.range'_append_1 (8 * i) 8 (8 * (n - (i + 1)))]
  congr 1
  omega

/-- One while iteration of `combine_kp` while the standard source stays
active: the whole loaded day is appended and the cursor advances past its
last timestamp. -/
theorem kpIter_std_step (std : KpInst) (rec fc : Option FileInst) (stop : Int)
    (st : KpState) (day : List Obs) (lastp : Obs)
    (hflag : st.flag = some .standard)
    (hload : loadByDate std.arch st.itime = day)
    (hne : day.isEmpty = false)
    (hlast : (st.acc ++ day).getLast? = some lastp) :
    kpIter (some std) rec fc stop st = .ok { st with
      acc := st.acc ++ day, stdRes := day, itime := lastp.1 + 3,
      notes := if !st.notedStd then
          st.notes ++ " the standard source (" ++ dayLabel st.itime ++ " to "
        else st.notes,
      notedStd := if !st.notedStd then true else st.notedStd } := by
  have h1 : kpStdBranch (some std) rec st = .ok { st with
      acc := st.acc ++ day, stdRes := day, itime := lastp.1 + 3,
      notes := if !st.notedStd then
          st.notes ++ " the standard source (" ++ dayLabel st.itime ++ " to "
        else st.notes,
      notedStd := if !st.notedStd then true else st.notedStd } := by
    simp only [kpStdBranch, hflag, hload, hne, hlast, if_true, eq_self_iff_true,
      Bool.false_eq_true, if_false]
  simp only [kpIter, h1]
  have h2 : ∀ st2 : KpState, st2.flag = some KpFlag.standard →
      kpRecentBranch rec fc stop st2 = .ok st2 := by
    intro st2 hf2
    simp [kpRecentBranch, hf2]
  have h3 : ∀ st2 : KpState, st2.flag = some KpFlag.standard →
      kpForecastBranch fc stop st2 = .ok st2 := by
    intro st2 hf2
    simp [kpForecastBranch, hf2]
  rw [h2 _ (by exact hflag)]
  exact h3 _ hflag

/-- While the standard archive fully covers the remaining days, the Kp sweep
stays on the standard source and accumulates exactly the archive slices of
those days, ending with the cursor at `stop = 24 n`; the recent and forecast
sources are never consulted. -/
theorem kpLoop_stdFull (res0 : List Obs) (n : Nat) (f : Nat → Int) (sfill : Int)
    (rec fc : Option FileInst) :
    ∀ (d i : Nat), i + d = n → ∀ (fuel : Nat), d + 1 ≤ fuel →
    ∀ (acc sR rR fR : List Obs) (nts : String) (b1 b2 b3 : Bool),
    ∃ (sR2 : List Obs) (nts2 : String) (b12 : Bool),
      kpLoop (some { resident := res0, arch := kpFullArch n f, fill := sfill }) rec fc
          (24 * (n : Int)) fuel
          { flag := some .standard, itime := 24 * (i : Int), acc := acc, stdRes := sR,
            recRes := rR, fcRes := fR, notes := nts, notedStd := b1, notedRec := b2,
            notedFc := b3 }
        = .ok { flag := some .standard, itime := 24 * (n : Int),
                acc := acc ++ kpSliceFrom i n f, stdRes := sR2, recRes := rR, fcRes := fR,
                notes := nts2, notedStd := b12, notedRec := b2, notedFc := b3 } := by
  intro d
  induction d with
  | zero =>
    intro i hi fuel hfuel acc sR rR fR nts b1 b2 b3
    obtain rfl : i = n := by omega
    obtain ⟨k, rfl⟩ : ∃ k, fuel = k + 1 := ⟨fuel - 1, by omega⟩
    refine ⟨sR, nts, b1, ?_⟩
    rw [kpSliceFrom_self, List.append_nil]
    simp only [kpLoop]
    rw [if_neg (fun hcon => absurd hcon.1 (lt_irrefl _))]
  | succ d ih =>
    intro i hi fuel hfuel acc sR rR fR nts b1 b2 b3
    have hin : i < n := by omega
    obtain ⟨k, rfl⟩ : ∃ k, fuel = k + 1 := ⟨fuel - 1, by omega⟩
    have hstep := kpIter_std_step
      { resident := res0, arch := kpFullArch n f, fill := sfill } rec fc (24 * (n : Int))
      { flag := some .standard, itime := 24 * (i : Int), acc := acc, stdRes := sR,
        recRes := rR, fcRes := fR, notes := nts, notedStd := b1, notedRec := b2,
        notedFc := b3 }
      (kpDaySlice i f) (3 * ((8 * i + 7 : Nat) : Int), f (8 * i + 7))
      rfl (loadByDate_kpFullArch n i f hin) (kpDaySlice_isEmpty i f)
      (by rw [List.getLast?_append, kpDaySlice_getLast?]; rfl)
    obtain ⟨sR2, nts2, b12, hih⟩ := ih (i + 1) (by omega) k (by omega)
      (acc ++ kpDaySlice i f) (kpDaySlice i f) rR fR
      (if !b1 then nts ++ " the standard source (" ++ dayLabel (24 * (i : Int)) ++ " to "
        else nts)
      (if !b1 then true else b1) b2 b3
    refine ⟨sR2, nts2, b12, ?_⟩
    have hguard : (24 * (i : Int)) < 24 * (n : Int)
        ∧ (some KpFlag.standard : Option KpFlag) ≠ none := by
      constructor
      · omega
      · simp
    simp only [kpLoop]
    rw [if_pos hguard, hstep]
    have harith : (3 * ((8 * i + 7 : Nat) : Int) + 3) = 24 * ((i + 1 : Nat) : Int) := by
      push_cast; ring
    rw [harith, ← kpDaySlice_append i n f hin, ← List.append_assoc]
    exact hih

/-- Consecutive differences of an affine grid are constant. -/
theorem consecDiffs_affine (c : Int) : ∀ (len s : Nat),
    consecDiffs ((List.range' s len).map (fun (k : Nat) => c * (k : Int)))
      = List.replicate (len - 1) c := by
  intro len
  induction len with
  | zero => intro s; rfl
  | succ m ih =>
    intro s
    cases m with
    | zero => rfl
    | succ m2 =>
      rw [List.range'_succ, List.map_cons, List.range'_succ, List.map_cons]
      show (c * ((s + 1 : Nat) : Int) - c * (s : Int))
          :: consecDiffs (c * ((s + 1 : Nat) : Int)
            :: (List.range' (s + 1 + 1) m2).map (fun (k : Nat) => c * (k : Int)))
        = List.replicate (m2 + 2 - 1) c
      have h1 : c * ((s + 1 : Nat) : Int) - c * (s : Int) = c := by push_cast; ring
      have h2 : consecDiffs (c * ((s + 1 : Nat) : Int)
            :: (List.range' (s + 1 + 1) m2).map (fun (k : Nat) => c * (k : Int)))
          = List.replicate (m2 + 1 - 1) c := by
        have h3 := ih (s + 1)
        rw [List.range'_succ, List.map_cons] at h3
        exact h3
      rw [h1, h2]
      rfl

/-- Folding `min` over copies of `c` starting from `c` gives `c`. -/
theorem foldl_min_replicate (c : Int) : ∀ (m : Nat), (List.replicate m c).foldl min c = c := by
  intro m
  induction m with
  | zero => rfl
  | succ k ih => simpa [List.replicate_succ, min_self] using ih

/-- The inferred frequency of an affine grid with at least two slots is the
grid step. -/
theorem calcFreq_affine (c : Int) (len s : Nat) (hlen : 2 ≤ len) :
    calcFreq ((List.range' s len).map (fun (k : Nat) => c * (k : Int))) = some c := by
  unfold calcFreq
  rw [consecDiffs_affine c len s]
  obtain ⟨m, rfl⟩ : ∃ m, len = m + 2 := ⟨len - 2, by omega⟩
  show intListMin (List.replicate (m + 1) c) = some c
  rw [List.replicate_succ]
  show some ((List.replicate m c).foldl min c) = some c
  rw [foldl_min_replicate]

/-- Head of a non-empty mapped range. -/
theorem mapRange_head (g : Nat → Int) (q : Nat) (hq : 1 ≤ q) :
    ((List.range q).map g).head? = some (g 0) := by
  obtain ⟨m, rfl⟩ : ∃ m, q = m + 1 := ⟨q - 1, by omega⟩
  rw [List.range_eq_range', List.range'_succ, List.map_cons]
  rfl

/-- Last element of a non-empty mapped range. -/
theorem mapRange_getLast (g : Nat → Int) (q : Nat) (hq : 1 ≤ q) :
    ((List.range q).map g).getLast? = some (g (q - 1)) := by
  rw [List.getLast?_eq_getElem?, List.length_map, List.length_range, List.getElem?_map,
    List.getElem?_range (by omega : q - 1 < q)]
  rfl

/-- `find?` on the 3-hourly grid pairs locates exactly position `k`. -/
theorem find?_grid_aux (f : Nat → Int) (k : Nat) : ∀ (len s : Nat), s ≤ k → k < s + len →
    ((List.range' s len).map (fun (j : Nat) => ((3 * (j : Int), f j) : Obs))).find?
      (fun p => p.1 == 3 * (k : Int)) = some (3 * (k : Int), f k) := by
  intro len
  induction len with
  | zero => intro s h1 h2; omega
  | succ m ih =>
    intro s h1 h2
    rw [List.range'_succ, List.map_cons]
    by_cases hsk : s = k
    · subst hsk
      rw [List.find?_cons_of_pos _ (by simp)]
    · rw [List.find?_cons_of_neg _ ?_]
      · exact ih (s + 1) (by omega) (by omega)
      · simp only [beq_iff_eq]
        intro hcon
        have : s = k := by exact_mod_cast mul_left_cancel₀ (by norm_num : (3:Int) ≠ 0) hcon
        exact hsk this

/-- The slices starting at day 0 are the whole archive. -/
theorem kpSliceFrom_zero (n : Nat) (f : Nat → Int) : kpSliceFrom 0 n f = kpFullArch n f := by
  unfold kpSliceFrom kpFullArch
  rw [Nat.mul_zero, Nat.sub_zero, ← List.range_eq_range']

/-- Timestamps of a fully covered Kp archive. -/
theorem kpFullArch_map_fst (n : Nat) (f : Nat → Int) :
    (kpFullArch n f).map (fun p => p.1) = (List.range (8 * n)).map (fun (k : Nat) => 3 * (k : Int)) := by
  unfold kpFullArch
  rw [List.map_map]
  rfl

/-- Values of a fully covered Kp archive. -/
theorem kpFullArch_map_snd (n : Nat) (f : Nat → Int) :
    (kpFullArch n f).map (fun p => p.2) = (List.range (8 * n)).map f := by
  unfold kpFullArch
  rw [List.map_map]
  rfl

/-- Looking up a grid slot in the full archive returns its value. -/
theorem lookupVal_fullGrid (n k : Nat) (f : Nat → Int) (hk : k < 8 * n) :
    lookupVal ((List.range (8 * n)).map (fun (j : Nat) => 3 * (j : Int)))
        ((List.range (8 * n)).map f) (3 * (k : Int)) = some (f k) := by
  unfold lookupVal
  rw [List.zip_map']
  rw [List.range_eq_range']
  rw [show ((fun a => (3 * (a : Int), f a)) : Nat → Obs)
      = (fun (j : Nat) => ((3 * (j : Int), f j) : Obs)) from rfl]
  rw [find?_grid_aux f k (8 * n) 0 (by omega) (by omega)]
  rfl

/-- On a fully covered Kp archive over `[0, 24 n)` the finalize stage is the
identity: frequency 3 is inferred, no padding happens, and the resample
returns every archive observation unchanged. -/
theorem finalizeSeries_fullGrid (n : Nat) (f : Nat → Int) (fill : Int) (hn : 1 ≤ n) :
    finalizeSeries 0 (24 * (n : Int)) (kpFullArch n f) fill = .ok (kpFullArch n f) := by
  have hfreq : calcFreq ((kpFullArch n f).map (fun p => p.1)) = some 3 := by
    rw [kpFullArch_map_fst, List.range_eq_range']
    exact calcFreq_affine 3 (8 * n) 0 (by omega)
  have hq : ((24 * (n : Int) - 24 - 0) / 3).toNat + 1 = 8 * n - 7 := by
    rw [show (24 * (n : Int) - 24 - 0) = 3 * (8 * (n : Int) - 8) by ring,
      Int.mul_ediv_cancel_left _ (by norm_num)]
    omega
  have hdr : dateRange 0 (24 * (n : Int) - 24) 3
      = (List.range (8 * n - 7)).map (fun (k : Nat) => 0 + 3 * (k : Int)) := by
    unfold dateRange
    rw [if_pos ⟨by norm_num, by omega⟩, hq]
  have hd0 : (dateRange 0 (24 * (n : Int) - 24) 3).head? = some (0 + 3 * ((0 : Nat) : Int)) := by
    rw [hdr]
    exact mapRange_head _ _ (by omega)
  have ht0 : ((kpFullArch n f).map (fun p => p.1)).head? = some (3 * ((0 : Nat) : Int)) := by
    rw [kpFullArch_map_fst]
    exact mapRange_head _ _ (by omega)
  have hdl : (dateRange 0 (24 * (n : Int) - 24) 3).getLast?
      = some (0 + 3 * ((8 * n - 7 - 1 : Nat) : Int)) := by
    rw [hdr]
    exact mapRange_getLast _ _ (by omega)
  have htl : ((kpFullArch n f).map (fun p => p.1)).getLast?
      = some (3 * ((8 * n - 1 : Nat) : Int)) := by
    rw [kpFullArch_map_fst]
    exact mapRange_getLast _ _ (by omega)
  have hlt1 : ¬(0 + 3 * ((0 : Nat) : Int) < 3 * ((0 : Nat) : Int)) := by omega
  have hlt2 : ¬(0 + 3 * ((8 * n - 7 - 1 : Nat) : Int) > 3 * ((8 * n - 1 : Nat) : Int)) := by
    omega
  have hpad : padSteps (dateRange 0 (24 * (n : Int) - 24) 3)
      ((kpFullArch n f).map (fun p => p.1)) ((kpFullArch n f).map (fun p => p.2)) fill
      = .ok ((kpFullArch n f).map (fun p => p.1), (kpFullArch n f).map (fun p => p.2)) := by
    unfold padSteps
    rw [hd0, ht0]
    simp only [hlt1, if_false]
    rw [hdl, htl]
    simp only [hlt2, if_false]
  have hne : ((kpFullArch n f).map (fun p => p.1)) ≠ dateRange 0 (24 * (n : Int) - 24) 3 := by
    intro hcon
    have hlen := congrArg List.length hcon
    rw [kpFullArch_map_fst, hdr, List.length_map, List.length_map, List.length_range,
      List.length_range] at hlen
    omega
  have hgrid : dateRange (3 * ((0 : Nat) : Int)) (3 * ((8 * n - 1 : Nat) : Int)) 3
      = (List.range (8 * n)).map (fun (k : Nat) => 3 * (k : Int)) := by
    unfold dateRange
    rw [if_pos ⟨by norm_num, by push_cast; omega⟩]
    have hq2 : ((3 * ((8 * n - 1 : Nat) : Int) - 3 * ((0 : Nat) : Int)) / 3).toNat + 1 = 8 * n := by
      rw [show (3 * ((8 * n - 1 : Nat) : Int) - 3 * ((0 : Nat) : Int))
          = 3 * ((8 * n - 1 : Nat) : Int) by push_cast; ring,
        Int.mul_ediv_cancel_left _ (by norm_num)]
      omega
    rw [hq2]
    apply List.map_congr_left
    intro k _
    push_cast
    ring
  have hres : resampleFillNa ((kpFullArch n f).map (fun p => p.1))
      ((kpFullArch n f).map (fun p => p.2)) 3 fill = kpFullArch n f := by
    unfold resampleFillNa
    have e1 : ((List.range (8 * n)).map (fun (k : Nat) => 3 * (k : Int))).head?
        = some (3 * ((0 : Nat) : Int)) := mapRange_head _ _ (by omega)
    have e2 : ((List.range (8 * n)).map (fun (k : Nat) => 3 * (k : Int))).getLast?
        = some (3 * ((8 * n - 1 : Nat) : Int)) := mapRange_getLast _ _ (by omega)
    simp only [kpFullArch_map_fst, kpFullArch_map_snd, e1, e2]
    rw [hgrid, List.map_map]
    unfold kpFullArch
    apply List.map_congr_left
    intro k hk
    simp only [Function.comp]
    rw [lookupVal_fullGrid n k f (List.mem_range.mp hk)]
    rfl
  simp only [finalizeSeries, hfreq, hpad]
  rw [if_neg hne, hres]

/-- C2, amended.  When the standard source's archive fully covers every
3-hour slot of every day of `[0, 24 n)`, the sweep never retires it, the
accumulator is exactly the standard archive, and the merged series carries
the standard source's value at every slot — regardless of what the recent
and forecast sources hold. -/
theorem c2_amended_full_coverage_priority (n : Nat) (f : Nat → Int)
    (res0 : List Obs) (sfill : Int) (rec fc : Option FileInst) (fill : Int) (fuel : Nat)
    (hn : 1 ≤ n) (hfuel : n + 2 ≤ fuel) (hsrc : rec.isSome = true ∨ fc.isSome = true) :
    (combine_kp (some { resident := res0, arch := kpFullArch n f, fill := sfill }) rec fc
        (some 0) (some (24 * (n : Int))) fill fuel).map (fun r => r.series)
      = .ok (kpFullArch n f) := by
  obtain ⟨sR2, nts2, b12, hloop⟩ := kpLoop_stdFull res0 n f sfill rec fc n 0 (by omega)
    fuel (by omega) [] res0 ((rec.map (·.resident)).getD []) ((fc.map (·.resident)).getD [])
    "Combines data from" false false false
  rw [Nat.cast_zero, mul_zero] at hloop
  rw [kpSliceFrom_zero, List.nil_append] at hloop
  have hfin := finalizeSeries_fullGrid n f fill hn
  simp only [combine_kp, Option.isSome_some, if_true, deriveStopKp, deriveStartKp]
  rw [if_neg ?cnt]
  case cnt =>
    rcases hsrc with h | h <;> by_cases h2 : rec.isSome <;> by_cases h3 : fc.isSome <;> simp_all
  simp only [Option.map_some', Option.getD_some]
  rw [hloop]
  simp only [hfin]
  rfl

/-- C2, amended, witness: a one-day standard archive with constant value 7,
merged with an empty recent source over `[0, 24)`, returns exactly the
archive. -/
theorem c2_amended_full_coverage_priority_witness :
    (combine_kp (some { resident := [], arch := kpFullArch 1 (fun _ => 7), fill := -1 })
        (some fileEmpty) none (some 0) (some (24 * ((1 : Nat) : Int))) (-9) 3).map
        (fun r => r.series)
      = .ok (kpFullArch 1 (fun _ => 7)) :=
  c2_amended_full_coverage_priority 1 (fun _ => 7) [] (-1) (some fileEmpty) none (-9) 3
    (by decide) (by decide) (Or.inl (by decide))

/-- A fold of `min` stays below every list member. -/
theorem natMinD_le (ds : List Nat) : ∀ x ∈ ds, natMinD ds ≤ x := by
  cases ds with
  | nil => intro x hx; cases hx
  | cons d r =>
    have haux : ∀ (r : List Nat) (a : Nat), (r.foldl min a ≤ a) ∧ ∀ x ∈ r, r.foldl min a ≤ x := by
      intro r
      induction r with
      | nil => intro a; exact ⟨le_refl a, fun x hx => absurd hx (List.not_mem_nil x)⟩
      | cons b r2 ih =>
        intro a
        refine ⟨le_trans (ih (min a b)).1 (min_le_left a b), ?_⟩
        intro x hx
        rcases List.mem_cons.mp hx with rfl | hx
        · exact le_trans (ih (min a x)).1 (min_le_right a x)
        · exact (ih (min a b)).2 x hx
    intro x hx
    rcases List.mem_cons.mp hx with rfl | hx
    · exact (haux r x).1
    · exact (haux r d).2 x hx

/-- When 0 occurs in the distance list, the minimum is 0. -/
theorem natMinD_eq_zero (ds : List Nat) (h : 0 ∈ ds) : natMinD ds = 0 :=
  Nat.le_zero.mp (natMinD_le ds 0 h)

/-- `indexOf 0` finds the first position holding 0. -/
theorem indexOf_zero_eq (ds : List Nat) : ∀ (j : Nat), ds[j]? = some 0 →
    (∀ k, k < j → ds[k]? ≠ some 0) → ds.indexOf 0 = j := by
  induction ds with
  | nil => intro j hj _; simp at hj
  | cons d r ih =>
    intro j hj hk
    cases j with
    | zero =>
      simp only [List.getElem?_cons_zero, Option.some.injEq] at hj
      subst hj
      exact List.indexOf_cons_self 0 r
    | succ j2 =>
      have hd : d ≠ 0 := by
        intro hcon
        exact hk 0 (Nat.succ_pos j2) (by simp [hcon])
      rw [List.indexOf_cons_ne r hd]
      rw [ih j2 (by simpa using hj) (fun k hk2 => by simpa using hk (k + 1) (by omega))]

/-- On an affine grid the first closest slot to an exact grid member is that
member's own index. -/
theorem argminAbsIdx_affine (c : Int) (hc : 0 < c) (q j : Nat) (hj : j < q) :
    argminAbsIdx ((List.range q).map (fun (k : Nat) => c * (k : Int))) (c * (j : Int)) = j := by
  unfold argminAbsIdx
  rw [List.map_map]
  set ds := (List.range q).map ((fun t => (t - c * (j : Int)).natAbs) ∘ (fun (k : Nat) => c * (k : Int))) with hds
  have hget : ∀ k, k < q → ds[k]? = some ((c * ((k : Int) - (j : Int))).natAbs) := by
    intro k hk
    rw [hds, List.getElem?_map, List.getElem?_range hk]
    simp only [Option.map_some', Function.comp]
    congr 2
    ring
  have hj0 : ds[j]? = some 0 := by
    rw [hget j hj]
    simp
  have hmem : 0 ∈ ds := List.getElem?_mem hj0
  have hprev : ∀ k, k < j → ds[k]? ≠ some 0 := by
    intro k hk hcon
    rw [hget k (by omega)] at hcon
    injection hcon with hcon
    rw [Int.natAbs_eq_zero] at hcon
    rcases mul_eq_zero.mp hcon with h0 | h0
    · omega
    · omega
  show List.indexOf (natMinD ds) ds = j
  rw [natMinD_eq_zero ds hmem]
  exact indexOf_zero_eq ds j hj0 hprev

/-- Comparing day buckets of two daily slots compares the day numbers. -/
theorem dayStart_day_beq (k i : Nat) :
    (dayStart (24 * (k : Int)) == dayStart (24 * (i : Int))) = (k == i) := by
  have h1 : dayStart (24 * (k : Int)) = ((24 * (24 * k / 24) : Nat) : Int) := by
    rw [show (24 * (k : Int)) = ((24 * k : Nat) : Int) by push_cast; ring, dayStart_natCast]
  have h2 : dayStart (24 * (i : Int)) = ((24 * (24 * i / 24) : Nat) : Int) := by
    rw [show (24 * (i : Int)) = ((24 * i : Nat) : Int) by push_cast; ring, dayStart_natCast]
  rw [h1, h2, Bool.eq_iff_iff]
  simp only [beq_iff_eq, Int.natCast_inj]
  omega

/-- The grid positions of day `i` inside `range n`. -/
theorem range_filter_eq_singleton (n i : Nat) (hi : i < n) :
    (List.range n).filter (fun k => k == i) = [i] := by
  rw [List.range_eq_range']
  have e1 : n = (n - i) + i := by omega
  rw [e1, ← List.range'_append_1 0 i (n - i), Nat.zero_add]
  have e2 : n - i = (n - i - 1) + 1 := by omega
  rw [e2, ← List.range'_append_1 i 1 (n - i - 1)]
  rw [List.filter_append, List.filter_append]
  have h1 : (List.range' 0 i).filter (fun k => k == i) = [] := by
    apply List.filter_eq_nil_iff.mpr
    intro a ha
    rcases List.mem_range'.mp ha with ⟨j, hj, rfl⟩
    simp only [beq_iff_eq]
    omega
  have h2 : (List.range' i 1).filter (fun k => k == i) = List.range' i 1 := by
    apply List.filter_eq_self.mpr
    intro a ha
    rcases List.mem_range'.mp ha with ⟨j, hj, rfl⟩
    simp only [beq_iff_eq]
    omega
  have h3 : (List.range' (i + 1) (n - i - 1)).filter (fun k => k == i) = [] := by
    apply List.filter_eq_nil_iff.mpr
    intro a ha
    rcases List.mem_range'.mp ha with ⟨j, hj, rfl⟩
    simp only [beq_iff_eq]
    omega
  rw [h1, h2, h3]
  simp

/-- Loading a covered day from a fully covered F10.7 archive yields exactly
that day's observation. -/
theorem loadByDate_f107FullArch (n i : Nat) (f : Nat → Int) (hi : i < n) :
    loadByDate (f107FullArch n f) (24 * (i : Int)) = [(24 * (i : Int), f i)] := by
  unfold loadByDate f107FullArch
  rw [List.filter_map]
  have hc : ∀ k ∈ List.range n,
      ((fun (p : Obs) => dayStart p.1 == dayStart (24 * (i : Int)))
        ∘ (fun (k : Nat) => ((24 * (k : Int), f k) : Obs))) k = (fun k => k == i) k := by
    intro k _
    simp only [Function.comp]
    exact dayStart_day_beq k i
  rw [List.filter_congr hc, range_filter_eq_singleton n i hi]
  rfl

/-- Loading a day beyond a fully covered F10.7 archive yields nothing. -/
theorem loadByDate_f107FullArch_ge (n i : Nat) (f : Nat → Int) (hn : n ≤ i) :
    loadByDate (f107FullArch n f) (24 * (i : Int)) = [] := by
  unfold loadByDate f107FullArch
  rw [List.filter_map]
  have hc : (List.range n).filter
      ((fun (p : Obs) => dayStart p.1 == dayStart (24 * (i : Int)))
        ∘ (fun (k : Nat) => ((24 * (k : Int), f k) : Obs))) = [] := by
    apply List.filter_eq_nil_iff.mpr
    intro k hk
    simp only [Function.comp, dayStart_day_beq, beq_iff_eq]
    have := List.mem_range.mp hk
    omega
  rw [hc]
  rfl

/-- No slice remains beyond the last F10.7 day. -/
theorem f107SliceFrom_self (n : Nat) (f : Nat → Int) : f107SliceFrom n n f = [] := by
  simp [f107SliceFrom, Nat.sub_self]

/-- The slices starting at day 0 are the whole F10.7 archive. -/
theorem f107SliceFrom_zero (n : Nat) (f : Nat → Int) : f107SliceFrom 0 n f = f107FullArch n f := by
  unfold f107SliceFrom f107FullArch
  rw [Nat.sub_zero, ← List.range_eq_range']

/-- Peeling one day off the remaining F10.7 slices. -/
theorem f107SliceFrom_cons (i n : Nat) (f : Nat → Int) (hi : i < n) :
    (24 * (i : Int), f i) :: f107SliceFrom (i + 1) n f = f107SliceFrom i n f := by
  unfold f107SliceFrom
  rw [show n - i = (n - (i + 1)) + 1 by omega, List.range'_succ, List.map_cons]

/-- One standard-branch iteration of the `combine_f107` sweep: with the
cursor's day not resident, a non-`'daily'` tag, a freshly loaded day whose
observations all lie in the window and all differ from the captured fill
value, the iteration appends that day and advances the cursor one day past
its last observation. -/
theorem f107Iter_std_step (std : F107Inst) (fc : F107FileInst) (stop : Int)
    (st : F107State) (day : List Obs) (lastp : Obs) (fS2 : MetaSrc × Int)
    (hflag : st.flag = some .standard)
    (hmem : st.stdRes.any (fun p => p.1 == st.itime) = false)
    (htag : (std.tag == "daily") = false)
    (hload : loadByDate std.arch st.itime = day)
    (hwin : day.filter (fun p => decide (st.itime ≤ p.1) && decide (p.1 < stop)) = day)
    (hne : day.isEmpty = false)
    (hfS : (match st.fillSt with
            | none => some (MetaSrc.standard, std.meta.fill)
            | s => s) = some fS2)
    (hgood : day.filter (fun p => p.2 != fS2.2) = day)
    (hlast : (st.acc ++ day).getLast? = some lastp) :
    f107Iter std fc stop st = .ok { st with
      acc := st.acc ++ day, stdRes := day, itime := lastp.1 + 24,
      fillSt := some fS2,
      notes := if !st.notedStd then
          st.notes ++ " the standard source (" ++ dayLabel st.itime ++ " to "
        else st.notes,
      notedStd := if !st.notedStd then true else st.notedStd } := by
  have h1 : f107StdBranch std stop st = .ok { st with
      acc := st.acc ++ day, stdRes := day, itime := lastp.1 + 24,
      fillSt := some fS2,
      notes := if !st.notedStd then
          st.notes ++ " the standard source (" ++ dayLabel st.itime ++ " to "
        else st.notes,
      notedStd := if !st.notedStd then true else st.notedStd } := by
    simp only [f107StdBranch, hflag, hmem, htag, hload, hwin, hne, hfS, hgood, hlast,
      if_true, eq_self_iff_true, Bool.false_eq_true, if_false, Option.map_some',
      Option.getD_some, Bool.not_false, List.isEmpty_eq_false]
  simp only [f107Iter, h1]
  have h2 : ∀ st2 : F107State, st2.flag = some F107Flag.standard →
      f107FcBranch fc stop st2 = .ok st2 := by
    intro st2 hf2
    simp [f107FcBranch, hf2]
  exact h2 _ hflag

/-- While the standard F10.7 archive fully covers the remaining days, the
sweep stays on the standard source and accumulates exactly the archive
slices of those days; at the first uncovered day the standard source is
retired and an empty forecast source adds nothing, leaving the cursor at
`24 n`. -/
theorem f107Loop_stdFull (res0 : List Obs) (n : Nat) (f : Nat → Int) (mt : MetaObj)
    (stag : String) (fc : F107FileInst) (m : Nat)
    (hnm : n ≤ m) (htag : (stag == "daily") = false) (hfc0 : fc.files = [])
    (hf : ∀ k, k < n → f k ≠ mt.fill) :
    ∀ (d i : Nat), 1 ≤ i → i + d = n → ∀ (fuel : Nat), d + 3 ≤ fuel →
    ∀ (acc : List Obs) (nts : String) (b1 b2 : Bool),
    ∃ (flag2 : Option F107Flag) (sR2 : List Obs) (nts2 : String) (b12 b22 : Bool),
      f107Loop { resident := res0, arch := f107FullArch n f, tag := stag, meta := mt } fc
          (24 * (m : Int)) fuel
          { flag := some .standard, itime := 24 * (i : Int), acc := acc,
            stdRes := [(24 * ((i - 1 : Nat) : Int), f (i - 1))], fcRes := [],
            fillSt := some (MetaSrc.standard, mt.fill), notes := nts,
            notedStd := b1, notedFc := b2 }
        = .ok { flag := flag2, itime := 24 * (n : Int),
                acc := acc ++ f107SliceFrom i n f, stdRes := sR2, fcRes := [],
                fillSt := some (MetaSrc.standard, mt.fill), notes := nts2,
                notedStd := b12, notedFc := b22 } := by
  intro d
  induction d with
  | zero =>
    intro i hi1 hi fuel hfuel acc nts b1 b2
    obtain rfl : i = n := by omega
    by_cases hm : i = m
    · subst hm
      obtain ⟨k, rfl⟩ : ∃ k, fuel = k + 1 := ⟨fuel - 1, by omega⟩
      refine ⟨some .standard, [(24 * ((i - 1 : Nat) : Int), f (i - 1))], nts, b1, b2, ?_⟩
      rw [f107SliceFrom_self, List.append_nil]
      simp only [f107Loop]
      rw [if_neg (fun hcon => absurd hcon.1 (lt_irrefl _))]
    · have hlt : i < m := by omega
      obtain ⟨k2, rfl⟩ : ∃ k2, fuel = k2 + 1 + 1 := ⟨fuel - 2, by omega⟩
      have hmem2 : ([((24 * ((i - 1 : Nat) : Int), f (i - 1)) : Obs)]).any
          (fun p => p.1 == 24 * (i : Int)) = false := by
        simp only [List.any_cons, List.any_nil, Bool.or_false, beq_eq_false_iff_ne, ne_eq]
        omega
      have hload0 : loadByDate (f107FullArch i f) (24 * (i : Int)) = [] :=
        loadByDate_f107FullArch_ge i i f (le_refl i)
      have hstd : f107StdBranch
          { resident := res0, arch := f107FullArch i f, tag := stag, meta := mt }
          (24 * (m : Int))
          { flag := some .standard, itime := 24 * (i : Int), acc := acc,
            stdRes := [(24 * ((i - 1 : Nat) : Int), f (i - 1))], fcRes := [],
            fillSt := some (MetaSrc.standard, mt.fill), notes := nts,
            notedStd := b1, notedFc := b2 }
        = .ok { flag := some .forecast, itime := 24 * (i : Int), acc := acc,
                stdRes := [], fcRes := [],
                fillSt := some (MetaSrc.standard, mt.fill),
                notes := (if !b1 then
                    nts ++ " the standard source (" ++ dayLabel (24 * (i : Int)) ++ " to "
                  else nts) ++ dayLabel (24 * (i : Int)) ++ ")",
                notedStd := if !b1 then true else b1, notedFc := b2 } := by
        simp only [f107StdBranch, hmem2, htag, hload0, List.filter_nil, List.isEmpty_nil,
          Bool.not_true, Bool.false_eq_true, if_false, if_true, eq_self_iff_true]
      have hfc : f107FcBranch fc (24 * (m : Int))
          { flag := some .forecast, itime := 24 * (i : Int), acc := acc,
            stdRes := [], fcRes := [],
            fillSt := some (MetaSrc.standard, mt.fill),
            notes := (if !b1 then
                nts ++ " the standard source (" ++ dayLabel (24 * (i : Int)) ++ " to "
              else nts) ++ dayLabel (24 * (i : Int)) ++ ")",
            notedStd := if !b1 then true else b1, notedFc := b2 }
        = .ok { flag := none, itime := 24 * (i : Int), acc := acc,
                stdRes := [], fcRes := [],
                fillSt := some (MetaSrc.standard, mt.fill),
                notes := ((if !b1 then
                    nts ++ " the standard source (" ++ dayLabel (24 * (i : Int)) ++ " to "
                  else nts) ++ dayLabel (24 * (i : Int)) ++ ")")
                  ++ dayLabel (24 * (i : Int)) ++ ")",
                notedStd := if !b1 then true else b1, notedFc := b2 } := by
        simp only [f107FcBranch, List.isEmpty_nil, if_true, hfc0, selectFiles,
          List.filter_nil, List.map_nil, f107FileLoop, eq_self_iff_true]
      refine ⟨none, [],
        ((if !b1 then
            nts ++ " the standard source (" ++ dayLabel (24 * (i : Int)) ++ " to "
          else nts) ++ dayLabel (24 * (i : Int)) ++ ")")
          ++ dayLabel (24 * (i : Int)) ++ ")",
        (if !b1 then true else b1), b2, ?_⟩
      rw [f107SliceFrom_self, List.append_nil]
      simp only [f107Loop]
      rw [if_pos ⟨by omega, by simp⟩]
      simp only [f107Iter, hstd]
      rw [hfc]
      simp only [f107Loop]
      rw [if_neg (fun hcon => hcon.2 rfl)]
  | succ d ih =>
    intro i hi1 hi fuel hfuel acc nts b1 b2
    have hin : i < n := by omega
    obtain ⟨k, rfl⟩ : ∃ k, fuel = k + 1 := ⟨fuel - 1, by omega⟩
    have hwin : ([((24 * (i : Int), f i) : Obs)]).filter
        (fun p => decide ((24 * (i : Int)) ≤ p.1) && decide (p.1 < 24 * (m : Int))) =
        [((24 * (i : Int), f i) : Obs)] := by
      apply List.filter_eq_self.mpr
      intro a ha
      obtain rfl : a = ((24 * (i : Int), f i) : Obs) := List.mem_singleton.mp ha
      simp only [Bool.and_eq_true, decide_eq_true_eq]
      exact ⟨le_refl _, by omega⟩
    have hgood : ([((24 * (i : Int), f i) : Obs)]).filter (fun p => p.2 != mt.fill) =
        [((24 * (i : Int), f i) : Obs)] := by
      apply List.filter_eq_self.mpr
      intro a ha
      obtain rfl : a = ((24 * (i : Int), f i) : Obs) := List.mem_singleton.mp ha
      simp only [bne_iff_ne, ne_eq]
      exact hf i hin
    have hmem : ([((24 * ((i - 1 : Nat) : Int), f (i - 1)) : Obs)]).any
        (fun p => p.1 == 24 * (i : Int)) = false := by
      simp only [List.any_cons, List.any_nil, Bool.or_false, beq_eq_false_iff_ne, ne_eq]
      omega
    have hstep := f107Iter_std_step
      { resident := res0, arch := f107FullArch n f, tag := stag, meta := mt } fc
      (24 * (m : Int))
      { flag := some .standard, itime := 24 * (i : Int), acc := acc,
        stdRes := [(24 * ((i - 1 : Nat) : Int), f (i - 1))], fcRes := [],
        fillSt := some (MetaSrc.standard, mt.fill), notes := nts,
        notedStd := b1, notedFc := b2 }
      [((24 * (i : Int), f i) : Obs)] ((24 * (i : Int), f i) : Obs)
      (MetaSrc.standard, mt.fill)
      rfl hmem htag (loadByDate_f107FullArch n i f hin) hwin rfl rfl hgood
      (by rw [List.getLast?_append]; rfl)
    obtain ⟨flag2, sR2, nts2, b12, b22, hih⟩ := ih (i + 1) (by omega) (by omega) k (by omega)
      (acc ++ [((24 * (i : Int), f i) : Obs)])
      (if !b1 then nts ++ " the standard source (" ++ dayLabel (24 * (i : Int)) ++ " to "
        else nts)
      (if !b1 then true else b1) b2
    rw [Nat.add_sub_cancel] at hih
    refine ⟨flag2, sR2, nts2, b12, b22, ?_⟩
    simp only [f107Loop]
    rw [if_pos ⟨by omega, by simp⟩, hstep]
    have harith : ((24 * (i : Int), f i) : Obs).1 + 24 = 24 * ((i + 1 : Nat) : Int) := by
      push_cast; ring
    rw [harith]
    rw [List.append_assoc, List.singleton_append, f107SliceFrom_cons i n f hin] at hih
    exact hih

/-- Timestamps of a fully covered F10.7 archive. -/
theorem f107FullArch_map_fst (n : Nat) (f : Nat → Int) :
    (f107FullArch n f).map (fun p => p.1)
      = (List.range n).map (fun (k : Nat) => 24 * (k : Int)) := by
  unfold f107FullArch
  rw [List.map_map]
  rfl

/-- Values of a fully covered F10.7 archive. -/
theorem f107FullArch_map_snd (n : Nat) (f : Nat → Int) :
    (f107FullArch n f).map (fun p => p.2) = (List.range n).map f := by
  unfold f107FullArch
  rw [List.map_map]
  rfl

/-- On an F10.7 accumulator covering days `0..n-1` inside the window
`[0, 24 m)` with `n ≤ m`, the finalize stage infers the daily cadence,
right-pads the axis to `stop - 1` day and fills the uncovered days: the
result is the gapless daily grid over `[0, 24 m)` carrying the archive
values on the covered days and the fill value beyond them. -/
theorem finalizeSeries_f107Grid (n m : Nat) (f : Nat → Int) (fill : Int)
    (h2 : 2 ≤ n) (hnm : n ≤ m) :
    finalizeSeries 0 (24 * (m : Int)) (f107FullArch n f) fill
      = .ok ((List.range m).map (fun (k : Nat) =>
          ((24 * (k : Int), if k < n then f k else fill) : Obs))) := by
  have hsplit : List.range' 0 n ++ List.range' n (m - n) = List.range' 0 m := by
    conv_rhs => rw [show m = (m - n) + n by omega]
    rw [← List.range'_append_1 0 n (m - n), Nat.zero_add]
  have hfst := f107FullArch_map_fst n f
  have hsnd := f107FullArch_map_snd n f
  have hfreq : calcFreq ((f107FullArch n f).map (fun p => p.1)) = some 24 := by
    rw [hfst, List.range_eq_range']
    exact calcFreq_affine 24 n 0 h2
  have hq : ((24 * (m : Int) - 24 - 0) / 24).toNat + 1 = m := by
    rw [show (24 * (m : Int) - 24 - 0) = 24 * ((m : Int) - 1) by ring,
      Int.mul_ediv_cancel_left _ (by norm_num)]
    omega
  have hdr : dateRange 0 (24 * (m : Int) - 24) 24
      = (List.range m).map (fun (k : Nat) => 24 * (k : Int)) := by
    unfold dateRange
    rw [if_pos ⟨by norm_num, by omega⟩, hq]
    apply List.map_congr_left
    intro k _
    rw [zero_add]
  have hd0 : (dateRange 0 (24 * (m : Int) - 24) 24).head? = some (24 * ((0 : Nat) : Int)) := by
    rw [hdr]
    exact mapRange_head _ _ (by omega)
  have ht0 : ((f107FullArch n f).map (fun p => p.1)).head? = some (24 * ((0 : Nat) : Int)) := by
    rw [hfst]
    exact mapRange_head _ _ (by omega)
  have hdl : (dateRange 0 (24 * (m : Int) - 24) 24).getLast?
      = some (24 * ((m - 1 : Nat) : Int)) := by
    rw [hdr]
    exact mapRange_getLast _ _ (by omega)
  have htl : ((f107FullArch n f).map (fun p => p.1)).getLast?
      = some (24 * ((n - 1 : Nat) : Int)) := by
    rw [hfst]
    exact mapRange_getLast _ _ (by omega)
  have hlt1 : ¬((24 * ((0 : Nat) : Int)) < 24 * ((0 : Nat) : Int)) := lt_irrefl _
  have hdropn : (dateRange 0 (24 * (m : Int) - 24) 24).drop n
      = (List.range' n (m - n)).map (fun (k : Nat) => 24 * (k : Int)) := by
    rw [hdr, List.range_eq_range', ← hsplit, List.map_append,
      List.drop_left' (by rw [List.length_map, List.length_range'])]
  have hpad : padSteps (dateRange 0 (24 * (m : Int) - 24) 24)
      ((f107FullArch n f).map (fun p => p.1)) ((f107FullArch n f).map (fun p => p.2)) fill
      = .ok ((f107FullArch n f).map (fun p => p.1)
              ++ (dateRange 0 (24 * (m : Int) - 24) 24).drop n,
            (f107FullArch n f).map (fun p => p.2)
              ++ ((dateRange 0 (24 * (m : Int) - 24) 24).drop n).map (fun _ => fill)) := by
    unfold padSteps
    rw [hd0, ht0]
    simp only [hlt1, if_false]
    simp only [hdl, htl]
    by_cases hcase : n < m
    · have hargm : argminAbsIdx (dateRange 0 (24 * (m : Int) - 24) 24)
          (24 * ((n - 1 : Nat) : Int)) = n - 1 := by
        rw [hdr]
        exact argminAbsIdx_affine 24 (by norm_num) m (n - 1) (by omega)
      rw [if_pos (show (24 * ((m - 1 : Nat) : Int)) > 24 * ((n - 1 : Nat) : Int) by omega)]
      simp only [hargm]
      rw [show n - 1 + 1 = n by omega]
    · have hdrop_nil : (dateRange 0 (24 * (m : Int) - 24) 24).drop n = [] := by
        rw [hdropn, show m - n = 0 by omega]
        rfl
      rw [if_neg (show ¬((24 * ((m - 1 : Nat) : Int)) > 24 * ((n - 1 : Nat) : Int)) by omega)]
      rw [hdrop_nil, List.map_nil, List.append_nil, List.append_nil]
  have hEqdr : (f107FullArch n f).map (fun p => p.1)
      ++ (dateRange 0 (24 * (m : Int) - 24) 24).drop n
      = dateRange 0 (24 * (m : Int) - 24) 24 := by
    rw [hfst, hdropn, hdr, ← List.map_append, List.range_eq_range']
    rw [List.range_eq_range', ← hsplit]
  have hz1 : (((f107FullArch n f).map (fun p => p.1)).zip
      ((f107FullArch n f).map (fun p => p.2))) = f107FullArch n f := by
    rw [List.zip_map']
    exact List.map_id _
  have hz2 : (((dateRange 0 (24 * (m : Int) - 24) 24).drop n).zip
      (((dateRange 0 (24 * (m : Int) - 24) 24).drop n).map (fun _ => fill)))
      = (List.range' n (m - n)).map (fun (k : Nat) => ((24 * (k : Int), fill) : Obs)) := by
    rw [hdropn, List.map_map, List.zip_map']
    apply List.map_congr_left
    intro k _
    rfl
  have htgt : (List.range m).map (fun (k : Nat) =>
        ((24 * (k : Int), if k < n then f k else fill) : Obs))
      = f107FullArch n f
        ++ (List.range' n (m - n)).map (fun (k : Nat) => ((24 * (k : Int), fill) : Obs)) := by
    rw [List.range_eq_range', ← hsplit, List.map_append]
    congr 1
    · unfold f107FullArch
      rw [List.range_eq_range']
      apply List.map_congr_left
      intro k hk
      rcases List.mem_range'.mp hk with ⟨j, hj, rfl⟩
      rw [if_pos (by omega)]
    · apply List.map_congr_left
      intro k hk
      rcases List.mem_range'.mp hk with ⟨j, hj, rfl⟩
      rw [if_neg (by omega)]
  simp only [finalizeSeries, hfreq, hpad]
  rw [if_pos hEqdr]
  rw [List.zip_append (by rw [List.length_map, List.length_map])]
  rw [hz1, hz2, htgt]

/-- Helper equalities for the first sweep iteration of a fully covered
standard F10.7 source started at time 0. -/
theorem loadByDate_f107FullArch_zero (n : Nat) (f : Nat → Int) (hn : 0 < n) :
    loadByDate (f107FullArch n f) (0 : Int) = [((0 : Int), f 0)] := by
  have h := loadByDate_f107FullArch n 0 f hn
  norm_num at h
  exact h

/-- C1, amended.  For the daily F10.7 merge over an explicit window
`[0, 24 m)` whose standard source covers days `0..n-1` (with `2 ≤ n ≤ m`)
and whose forecast source is empty, the returned series is the gapless
daily axis over `[0, 24 m)` — `date_range(start, stop - 1 day)` right-padded
to the window — holding the standard value on every covered day and the
fill value on every later day. -/
theorem c1_amended_f107_axis_gapless (n m : Nat) (f : Nat → Int) (mt fcm : MetaObj)
    (res0 : List Obs) (stag fctag : String) (fuel : Nat)
    (h2 : 2 ≤ n) (hnm : n ≤ m) (hfuel : n + 4 ≤ fuel)
    (htag : (stag == "daily") = false)
    (hres0 : res0.any (fun p => p.1 == (0 : Int)) = false)
    (hf : ∀ k, k < n → f k ≠ mt.fill) :
    (combine_f107 { resident := res0, arch := f107FullArch n f, tag := stag, meta := mt }
        { resident := [], files := [], tag := fctag, meta := fcm }
        (some 0) (some (24 * (m : Int))) fuel).map (fun r => r.series)
      = .ok ((List.range m).map (fun (k : Nat) =>
          ((24 * (k : Int), if k < n then f k else mt.fill) : Obs))) := by
  obtain ⟨k, rfl⟩ : ∃ k, fuel = k + 1 := ⟨fuel - 1, by omega⟩
  have hload0 := loadByDate_f107FullArch_zero n f (by omega)
  have hwin0 : ([((0 : Int), f 0)] : List Obs).filter
      (fun p => decide ((0 : Int) ≤ p.1) && decide (p.1 < 24 * (m : Int)))
      = [((0 : Int), f 0)] := by
    apply List.filter_eq_self.mpr
    intro a ha
    obtain rfl : a = ((0 : Int), f 0) := List.mem_singleton.mp ha
    simp only [Bool.and_eq_true, decide_eq_true_eq]
    exact ⟨le_refl _, by omega⟩
  have hgood0 : ([((0 : Int), f 0)] : List Obs).filter (fun p => p.2 != mt.fill)
      = [((0 : Int), f 0)] := by
    apply List.filter_eq_self.mpr
    intro a ha
    obtain rfl : a = ((0 : Int), f 0) := List.mem_singleton.mp ha
    simp only [bne_iff_ne, ne_eq]
    exact hf 0 (by omega)
  have hstep1 := f107Iter_std_step
    { resident := res0, arch := f107FullArch n f, tag := stag, meta := mt }
    { resident := [], files := [], tag := fctag, meta := fcm }
    (24 * (m : Int))
    { flag := some .standard, itime := 0, acc := [], stdRes := res0, fcRes := [],
      fillSt := none, notes := "Combines data from", notedStd := false, notedFc := false }
    [((0 : Int), f 0)] ((0 : Int), f 0) (MetaSrc.standard, mt.fill)
    rfl hres0 htag hload0 hwin0 rfl rfl hgood0 rfl
  obtain ⟨flag2, sR2, nts2, b12, b22, hloop'⟩ := f107Loop_stdFull res0 n f mt stag
    { resident := [], files := [], tag := fctag, meta := fcm } m hnm htag rfl hf
    (n - 1) 1 (le_refl 1) (by omega) k (by omega)
    ([] ++ [((0 : Int), f 0)])
    (if !false then "Combines data from" ++ " the standard source ("
        ++ dayLabel (0 : Int) ++ " to " else "Combines data from")
    (if !false then true else false) false
  have hcons := f107SliceFrom_cons 0 n f (by omega)
  norm_num at hcons
  have haccfin : ([] ++ [((0 : Int), f 0)]) ++ f107SliceFrom 1 n f = f107FullArch n f := by
    rw [List.nil_append, List.singleton_append, hcons, f107SliceFrom_zero]
  rw [haccfin] at hloop'
  have hloopfull : f107Loop
      { resident := res0, arch := f107FullArch n f, tag := stag, meta := mt }
      { resident := [], files := [], tag := fctag, meta := fcm }
      (24 * (m : Int)) (k + 1)
      { flag := some .standard, itime := 0, acc := [], stdRes := res0, fcRes := [],
        fillSt := none, notes := "Combines data from", notedStd := false, notedFc := false }
      = .ok { flag := flag2, itime := 24 * (n : Int), acc := f107FullArch n f,
              stdRes := sR2, fcRes := [], fillSt := some (MetaSrc.standard, mt.fill),
              notes := nts2, notedStd := b12, notedFc := b22 } := by
    simp only [f107Loop]
    rw [if_pos ⟨by omega, by simp⟩, hstep1]
    exact hloop'
  have hfin := finalizeSeries_f107Grid n m f mt.fill h2 hnm
  simp only [combine_f107, deriveStartF107, deriveStopF107]
  rw [if_neg (show ¬((0 : Int) ≥ 24 * (m : Int)) by omega)]
  rw [hloopfull]
  simp only [Option.map_some', Option.getD_some]
  rw [hfin]
  rfl

/-- C1, amended, witness: standard F10.7 data on days 0 and 1 merged with an
empty forecast over `[0, 72)` yields the three-day gapless axis with the fill
value on day 2. -/
theorem c1_amended_f107_axis_gapless_witness :
    (combine_f107 { resident := [], arch := f107FullArch 2 (fun k => (100 : Int) + k),
                    tag := "", meta := metaA }
        { resident := [], files := [], tag := "forecast", meta := metaA }
        (some 0) (some (24 * ((3 : Nat) : Int))) 10).map (fun r => r.series)
      = .ok ((List.range 3).map (fun (k : Nat) =>
          ((24 * (k : Int), if k < 2 then (100 : Int) + k else metaA.fill) : Obs))) :=
  c1_amended_f107_axis_gapless 2 3 (fun k => (100 : Int) + k) metaA metaA [] "" "forecast" 10
    (by decide) (by decide) (by decide) (by decide) rfl
    (by intro k hk; simp only [metaA]; omega)

/-- C8.  On a two-day 3-hourly ap dataset with arbitrary values, the
21:00 rows of the rolling mean hold each calendar day's 8-sample mean, and
`calc_daily_Ap` backfills exactly those two values across the respective
day's 3-hour slots: every slot of day 0 carries the mean of samples
`g 0 .. g 7` and every slot of day 1 the mean of `g 8 .. g 15`.  In
particular a day of eight samples equal to 2 receives daily mean 2 at every
slot. -/
theorem c8_daily_value_from_2100_rolling_mean (g : Nat → ℚ) :
    (rollingMean1D ((List.range 16).map (fun (k : Nat) => (3 * (k : Int), some (g k))))).filter
        (fun p => p.1 % 24 == 21)
      = [((21 : Int), some (((List.range 8).map g).sum / (8 : ℚ))),
         ((45 : Int), some (((List.range' 8 8).map g).sum / (8 : ℚ)))]
    ∧ calc_daily_Ap
        [("3hr_ap", (List.range 16).map (fun (k : Nat) => (3 * (k : Int), some (g k))))]
        "3hr_ap" "Ap" none
      = .ok [("3hr_ap", (List.range 16).map (fun (k : Nat) => (3 * (k : Int), some (g k)))),
             ("Ap", (List.range 8).map (fun (k : Nat) => (3 * (k : Int),
                  some (((List.range 8).map g).sum / (8 : ℚ))))
                ++ (List.range' 8 8).map (fun (k : Nat) => (3 * (k : Int),
                  some (((List.range' 8 8).map g).sum / (8 : ℚ)))))]
    ∧ calc_daily_Ap [("3hr_ap", apDayTwo)] "3hr_ap" "Ap" none
      = .ok [("3hr_ap", apDayTwo),
             ("Ap", (List.range 8).map (fun (k : Nat) => (3 * (k : Int),
                some (([2, 2, 2, 2, 2, 2, 2, 2] : List ℚ).sum / (8 : ℚ)))))]
    ∧ (([2, 2, 2, 2, 2, 2, 2, 2] : List ℚ).sum / (8 : ℚ)) = 2 := by
  refine ⟨rfl, rfl, rfl, ?_⟩
  norm_num [List.sum_cons, List.sum_nil]

end SW
